import Mathlib

/-!
Verification of the grid-restriction / grid-convergence core of the
`snake` post-processing toolkit.

The embedding follows the Python sources:
* `Field` and `Field.restriction`, `Field.get_difference`
  from `src/library/field.py`;
* `restriction` and `observed_order_convergence`
  from `src/scripts/validation/plotGridConvergence.py`
  (the same mask-based restriction algorithm);
* the `Linf` branch of the observed-order computation is modelled from the
  spec, since `snake/convergence.py` is only exercised by tests here.

Grid coordinates and nodal values are embedded as rational numbers
(ideal arithmetic; the Python code uses IEEE doubles).  NumPy's non-finite
results (`inf`, `-inf`, `nan`) arising from `log(0)` and division by zero
are modelled explicitly by the `NpFloat` type, and raised Python exceptions
by `Option`/`Except` results.
-/

namespace Snake

/-- A scalar field sampled on a rectilinear 2-D grid: embeds the data of
class `Field` from `src/library/field.py` (`x`, `y` coordinate arrays, 2-D
`values` array stored as a list of rows, plus `label` and `time_step`). -/
structure Field where
  x : List ℚ
  y : List ℚ
  values : List (List ℚ)
  label : String
  time_step : Option Int
deriving DecidableEq

/-- `boolAny targets atol v` is the entry of the boolean mask produced by
`intersection(a, b)` in `Field.restriction` for the grid node `v`:
`numpy.any(numpy.abs(a - b[:, numpy.newaxis]) <= atol, axis=0)` marks a
node of `a` when some target in `b` is within `atol` of it. -/
def boolAny (targets : List ℚ) (atol : ℚ) (v : ℚ) : Bool :=
  targets.any (fun t => |v - t| ≤ atol)

/-- Select the entries of a list at the `true` positions of a positional
boolean mask: the result of NumPy boolean-array indexing whenever every
`true` index is in range.  (This era's NumPy turns a boolean mask into
the indices of its `True` entries, so a shorter mask, or a longer mask
with a `false` tail, selects nothing extra; a `true` index past the end
of the axis raises `IndexError` in every NumPy version — `restriction`
models that error path with its `hasTrueBeyond` guards.) -/
def applyMask {α : Type} : List Bool → List α → List α
  | true :: ms, v :: l => v :: applyMask ms l
  | false :: ms, _ :: l => applyMask ms l
  | _, _ => []

/-- `hasTrueBeyond mask n` holds when the mask selects an index `≥ n`:
the condition under which indexing a length-`n` axis with this mask
raises `IndexError` — inside `restriction`, either the comprehension
evaluating `self.values[j]` for `j` past the end of `values`, or
`row[mask_x]` selecting a column index past the end of a row. -/
def hasTrueBeyond (mask : List Bool) (n : ℕ) : Bool :=
  (mask.drop n).any id

/-- Embedding of `Field.restriction(grid, atol)` from `src/library/field.py`
(the function `restriction(field, grid)` in
`src/scripts/validation/plotGridConvergence.py` runs the same algorithm):
build the boolean masks `mask_x`, `mask_y` by coincidence within `atol`,
then select the masked coordinates and the masked sub-array of `values`.
`none` models the `IndexError` raised during selection, either when the
`y`-mask selects a row index past the end of `values`, or when the
`x`-mask selects a column index past the end of a selected row
(`row[mask_x]` with a `True` entry out of range). -/
def restriction (f : Field) (gx gy : List ℚ) (atol : ℚ) : Option Field :=
  let mx := f.x.map (boolAny gx atol)
  let my := f.y.map (boolAny gy atol)
  if hasTrueBeyond my f.values.length
      || (applyMask my f.values).any (fun row => hasTrueBeyond mx row.length)
  then none
  else some { x := applyMask mx f.x
              y := applyMask my f.y
              values := (applyMask my f.values).map (applyMask mx)
              label := f.label ++ "-restricted"
              time_step := f.time_step }

/-- `matchCount xs atol t` counts the nodes of the fine grid `xs` lying
within `atol` of the target coordinate `t` (the number of `True` entries
the target contributes to the restriction mask). -/
def matchCount (xs : List ℚ) (atol t : ℚ) : ℕ :=
  (xs.filter (fun v => |v - t| ≤ atol)).length

/-- Elementwise difference of two 2-D value arrays
(`a.values - b.values` for same-shaped NumPy arrays). -/
def matSub (A B : List (List ℚ)) : List (List ℚ) :=
  List.zipWith (fun r s => List.zipWith (fun u v => u - v) r s) A B

/-- Shape agreement of two 2-D value arrays: same number of rows and
rows of pairwise equal lengths (the condition under which NumPy
subtraction is the plain elementwise difference). -/
def sameShape (A B : List (List ℚ)) : Bool :=
  A.length == B.length && (A.zip B).all (fun p => p.1.length == p.2.length)

/-- Rectangular shape `(rows, cols)` of a 2-D array, `none` when the
rows have unequal lengths (a genuine NumPy 2-D array is never ragged). -/
def shapeOf (A : List (List ℚ)) : Option (ℕ × ℕ) :=
  match A with
  | [] => some (0, 0)
  | r :: _ =>
      if A.all (fun row => row.length == r.length)
      then some (A.length, r.length) else none

/-- NumPy broadcasting of one axis: the two lengths must agree, or one of
them must be `1` (which is stretched to the other). -/
def bcDim (a b : ℕ) : Option ℕ :=
  if a = b then some a
  else if a = 1 then some b
  else if b = 1 then some a
  else none

/-- Stretch the row list of a 2-D array to the broadcast row count. -/
def bcRows (A : List (List ℚ)) (n : ℕ) : List (List ℚ) :=
  if A.length = n then A else List.replicate n A.headI

/-- Stretch one row to the broadcast column count. -/
def bcCols (row : List ℚ) (n : ℕ) : List ℚ :=
  if row.length = n then row else List.replicate n row.headI

/-- NumPy subtraction of two 2-D arrays: plain elementwise difference
when the shapes agree; otherwise NumPy silently broadcasts whenever each
axis matches or has length `1` (e.g. a `(1,2)` array minus a `(1,1)`
array stretches the second operand).  `none` models the `ValueError` of
genuinely incompatible shapes. -/
def npSub (A B : List (List ℚ)) : Option (List (List ℚ)) :=
  if sameShape A B then some (matSub A B)
  else
    match shapeOf A, shapeOf B with
    | some (ra, ca), some (rb, cb) =>
        match bcDim ra rb, bcDim ca cb with
        | some rr, some cc =>
            some (List.zipWith
              (fun r s => List.zipWith (fun u v => u - v)
                (bcCols r cc) (bcCols s cc))
              (bcRows A rr) (bcRows B rr))
        | _, _ => none
    | _, _ => none

/-- Sum of squared entries of a 2-D array: the square of the Frobenius
norm `numpy.linalg.norm(A)` (the `ord=None` default on a 2-D array). -/
def sumSq (A : List (List ℚ)) : ℚ :=
  (A.map (fun row => (row.map (fun v => v * v)).sum)).sum

/-- Maximum absolute entry of a 2-D array (`0` when empty).  This is the
`Linf` norm in the sense of the spec: "the maximum absolute value". -/
def maxAbs (A : List (List ℚ)) : ℚ :=
  (A.map (fun row => (row.map (fun v => |v|)).foldr max 0)).foldr max 0

/-- Maximum absolute row sum of a 2-D array (`0` when empty): the value of
`numpy.linalg.norm(A, ord=numpy.inf)` on a 2-D array (the induced
matrix infinity-norm), used by `Field.get_difference` for `'Linf'`. -/
def maxRowSum (A : List (List ℚ)) : ℚ :=
  (A.map (fun row => (row.map (fun v => |v|)).sum)).foldr max 0

/-- The Frobenius norm `numpy.linalg.norm(A)` of a 2-D array. -/
noncomputable def frobNorm (A : List (List ℚ)) : ℝ :=
  Real.sqrt ((sumSq A : ℝ))

/-- Python exceptions that the embedded operations can raise. -/
inductive PyErr where
  | indexError
  | keyError
  | valueError
deriving DecidableEq

/-- A NumPy double-precision result that may be non-finite: `log(0)`,
`x/0` and `0/0` silently produce `-inf`, `inf` and `nan` (with a runtime
warning, not an exception). -/
inductive NpFloat where
  | val : ℝ → NpFloat
  | posInf
  | negInf
  | nan

/-- IEEE division of two finite nonnegative operands (the two norm values):
`0/0 = nan`, `x/0 = +inf` for `x > 0`, otherwise the exact quotient. -/
noncomputable def npDivNN (n1 n2 : ℝ) : NpFloat :=
  open Classical in
  if n2 = 0 then (if n1 = 0 then NpFloat.nan else NpFloat.posInf)
  else NpFloat.val (n1 / n2)

/-- `numpy.log` on a possibly non-finite argument: `log(nan) = nan`,
`log(inf) = inf`, `log(0) = -inf`, `log(x) = nan` for `x < 0`. -/
noncomputable def npLog : NpFloat → NpFloat
  | NpFloat.nan => NpFloat.nan
  | NpFloat.posInf => NpFloat.posInf
  | NpFloat.negInf => NpFloat.nan
  | NpFloat.val v =>
      open Classical in
      if v < 0 then NpFloat.nan
      else if v = 0 then NpFloat.negInf
      else NpFloat.val (Real.log v)

/-- IEEE division of a possibly non-finite numerator by a finite
denominator `d` (here `d = log(ratio)`). -/
noncomputable def npDivFin : NpFloat → ℝ → NpFloat
  | NpFloat.nan, _ => NpFloat.nan
  | NpFloat.posInf, d => if d < 0 then NpFloat.negInf else NpFloat.posInf
  | NpFloat.negInf, d => if d < 0 then NpFloat.posInf else NpFloat.negInf
  | NpFloat.val v, d =>
      open Classical in
      if d = 0 then
        (if v = 0 then NpFloat.nan
         else if 0 < v then NpFloat.posInf else NpFloat.negInf)
      else NpFloat.val (v / d)

/-- The observed-order arithmetic
`numpy.log(n1 / n2) / numpy.log(ratio)` of `observed_order_convergence`
(`src/scripts/validation/plotGridConvergence.py`, lines 192-196), carried
out with NumPy's silent non-finite results. -/
noncomputable def npOrder (n1 n2 r : ℝ) : NpFloat :=
  npDivFin (npLog (npDivNN n1 n2)) (Real.log r)

/-- Observed order of grid convergence from three solutions restricted
onto a common mask grid.  For `useLinf = false` this embeds
`observed_order_convergence` from
`src/scripts/validation/plotGridConvergence.py` (restrict the three
fields, then `log(norm(d1)/norm(d2))/log(ratio)` with the L2 norm).
For `useLinf = true` the norm is
Modelled from the spec: the missing module `snake/convergence.py`
(`get_observed_order`, exercised by `snake/tests/convergence_test.py`)
also accepts `order=numpy.inf`, and the spec defines the `Linf` norm as
"the maximum absolute value" of the flattened difference array.
`none` models a raised exception (restriction `IndexError`, or the
`ValueError` of subtracting arrays with incompatible, non-broadcastable
shapes). -/
noncomputable def get_observed_order (useLinf : Bool)
    (coarse medium fine : Field) (ratio : ℚ) (gx gy : List ℚ)
    (atol : ℚ) : Option NpFloat :=
  match restriction coarse gx gy atol, restriction medium gx gy atol,
        restriction fine gx gy atol with
  | some c, some m, some f =>
      match npSub m.values c.values, npSub f.values m.values with
      | some d1, some d2 =>
          some (if useLinf then
                  npOrder ((maxAbs d1 : ℝ)) ((maxAbs d2 : ℝ)) ((ratio : ℝ))
                else npOrder (frobNorm d1) (frobNorm d2) ((ratio : ℝ)))
      | _, _ => none
  | _, _, _ => none

/-- Embedding of `Field.get_difference(exact, mask, norm)` from
`src/library/field.py`: restrict both fields onto the mask field's grid
(with the default `atol = 1e-6`), subtract, and take
`numpy.linalg.norm(diff, ord=norms[norm])` where
`norms = {'L2': None, 'Linf': numpy.inf}`.  The subtraction follows
NumPy broadcasting (`npSub`), so two restricted arrays whose shapes
differ but are broadcastable are subtracted silently.  Python evaluates
the subtraction before the dictionary lookup, so an unknown `norm`
string raises `KeyError` only after both restrictions and the
subtraction succeed. -/
noncomputable def get_difference (self exact mask : Field) (norm : String) :
    Except PyErr ℝ :=
  match restriction self mask.x mask.y (1/1000000),
        restriction exact mask.x mask.y (1/1000000) with
  | none, _ => Except.error PyErr.indexError
  | some _, none => Except.error PyErr.indexError
  | some a, some b =>
      match npSub a.values b.values with
      | none => Except.error PyErr.valueError
      | some d =>
          match norm with
          | "L2" => Except.ok (frobNorm d)
          | "Linf" => Except.ok ((maxRowSum d : ℝ))
          | _ => Except.error PyErr.keyError

/-- The slice `l[::k]` of NumPy/Python for a stride `k ≥ 1`: every `k`-th
element starting from the first. -/
def stride {α : Type} (k : ℕ) : List α → List α
  | [] => []
  | v :: l => v :: stride k (l.drop (k - 1))
termination_by l => l.length
decreasing_by simp only [List.length_drop, List.length_cons]; omega

/-- Decidable check that consecutive entries of a coordinate list increase
by more than `g` (the spec's "strictly increasing, spaced more than twice
the tolerance apart" hypothesis, with `g = 2*atol`). -/
def sepB (g : ℚ) : List ℚ → Bool
  | [] => true
  | [_] => true
  | a :: b :: l => decide (g < b - a) && sepB g (b :: l)

/-- All of a 2-D value array's entries are zero. -/
def allZero (A : List (List ℚ)) : Bool :=
  A.all (fun row => row.all (fun v => v == 0))

section MaskLemmas

variable {α : Type}

theorem hasTrueBeyond_false_of_le (m : List Bool) (n : ℕ)
    (h : m.length ≤ n) : hasTrueBeyond m n = false := by
  unfold hasTrueBeyond
  rw [List.drop_eq_nil_of_le h]
  rfl

theorem any_eq_false_of {β : Type} (l : List β) (p : β → Bool)
    (h : ∀ x ∈ l, p x = false) : l.any p = false := by
  induction l with
  | nil => rfl
  | cons a t ih =>
    simp only [List.any_cons, h a (List.mem_cons_self a t),
      ih (fun x hx => h x (List.mem_cons_of_mem _ hx)), Bool.or_self]

theorem npSub_of_sameShape (A B : List (List ℚ))
    (h : sameShape A B = true) : npSub A B = some (matSub A B) := by
  simp [npSub, h]

theorem applyMask_nil_mask (l : List α) : applyMask [] l = [] := by
  cases l <;> rfl

theorem applyMask_nil_list (m : List Bool) :
    applyMask m ([] : List α) = [] := by
  cases m with
  | nil => rfl
  | cons b ms => cases b <;> rfl

theorem applyMask_cons_true (ms : List Bool) (v : α) (l : List α) :
    applyMask (true :: ms) (v :: l) = v :: applyMask ms l := rfl

theorem applyMask_cons_false (ms : List Bool) (v : α) (l : List α) :
    applyMask (false :: ms) (v :: l) = applyMask ms l := rfl

theorem applyMask_sublist (m : List Bool) (l : List α) :
    (applyMask m l).Sublist l := by
  induction m generalizing l with
  | nil => simp [applyMask_nil_mask]
  | cons b ms ih =>
    cases l with
    | nil => simp [applyMask_nil_list]
    | cons v t =>
      cases b with
      | true => simpa [applyMask_cons_true] using (ih t).cons₂ v
      | false => simpa [applyMask_cons_false] using (ih t).cons v

theorem applyMask_length_congr {β : Type} (m : List Bool) (l₁ : List α)
    (l₂ : List β) (h : l₁.length = l₂.length) :
    (applyMask m l₁).length = (applyMask m l₂).length := by
  induction m generalizing l₁ l₂ with
  | nil => simp [applyMask_nil_mask]
  | cons b ms ih =>
    cases l₁ with
    | nil =>
      cases l₂ with
      | nil => rw [applyMask_nil_list, applyMask_nil_list]; rfl
      | cons v t => simp at h
    | cons v₁ t₁ =>
      cases l₂ with
      | nil => simp at h
      | cons v₂ t₂ =>
        simp only [List.length_cons, Nat.succ.injEq] at h
        cases b with
        | true =>
          simp [applyMask_cons_true, ih t₁ t₂ h]
        | false => simp [applyMask_cons_false, ih t₁ t₂ h]

theorem applyMask_map_self (p : α → Bool) (l : List α) :
    applyMask (l.map p) l = l.filter p := by
  induction l with
  | nil => rfl
  | cons v t ih =>
    cases hv : p v with
    | true => simp [List.filter_cons, hv, applyMask_cons_true, ih]
    | false => simp [List.filter_cons, hv, applyMask_cons_false, ih]

theorem applyMask_append (m₁ m₂ : List Bool) (l₁ l₂ : List α)
    (h : m₁.length = l₁.length) :
    applyMask (m₁ ++ m₂) (l₁ ++ l₂) = applyMask m₁ l₁ ++ applyMask m₂ l₂ := by
  induction m₁ generalizing l₁ with
  | nil =>
    cases l₁ with
    | nil => simp [applyMask_nil_mask]
    | cons v t => simp at h
  | cons b ms ih =>
    cases l₁ with
    | nil => simp at h
    | cons v t =>
      simp only [List.length_cons, Nat.succ.injEq] at h
      cases b with
      | true => simp [applyMask_cons_true, ih t h]
      | false => simp [applyMask_cons_false, ih t h]

theorem applyMask_all_false (m : List Bool) (l : List α)
    (h : ∀ b ∈ m, b = false) : applyMask m l = [] := by
  induction m generalizing l with
  | nil => exact applyMask_nil_mask l
  | cons b ms ih =>
    cases l with
    | nil => exact applyMask_nil_list _
    | cons v t =>
      have hb : b = false := h b (List.mem_cons_self b ms)
      subst hb
      exact (applyMask_cons_false ms v t).trans
        (ih t (fun c hc => h c (List.mem_cons_of_mem _ hc)))

theorem applyMask_all_true (m : List Bool) (l : List α)
    (hm : ∀ b ∈ m, b = true) (h : l.length ≤ m.length) :
    applyMask m l = l := by
  induction m generalizing l with
  | nil =>
    cases l with
    | nil => rfl
    | cons v t => simp at h
  | cons b ms ih =>
    cases l with
    | nil => exact applyMask_nil_list _
    | cons v t =>
      have hb : b = true := hm b (List.mem_cons_self b ms)
      subst hb
      simp only [List.length_cons, Nat.succ_le_succ_iff] at h
      rw [applyMask_cons_true,
        ih t (fun c hc => hm c (List.mem_cons_of_mem _ hc)) h]

end MaskLemmas

section StrideLemmas

variable {α β : Type}

theorem stride_nil (k : ℕ) : stride k ([] : List α) = [] := by
  rw [stride]

theorem stride_cons (k : ℕ) (v : α) (l : List α) :
    stride k (v :: l) = v :: stride k (l.drop (k - 1)) := by
  rw [stride]

theorem stride_one : ∀ (l : List α), stride 1 l = l
  | [] => stride_nil 1
  | v :: t => by rw [stride_cons]; simp [stride_one t]

theorem stride_sublist (k : ℕ) : ∀ (l : List α), (stride k l).Sublist l
  | [] => by rw [stride_nil]
  | v :: t => by
      rw [stride_cons]
      exact ((stride_sublist k (t.drop (k - 1))).trans
        (List.drop_sublist _ _)).cons₂ v
termination_by l => l.length
decreasing_by simp only [List.length_drop, List.length_cons]; omega

theorem stride_length_mul (k : ℕ) (hk : 1 ≤ k) :
    ∀ (l : List α) (n : ℕ), l.length = n * k → (stride k l).length = n
  | [], n, h => by
      rw [stride_nil]
      simp only [List.length_nil] at h ⊢
      rcases Nat.mul_eq_zero.mp h.symm with rfl | rfl
      · rfl
      · omega
  | v :: t, n, h => by
      rcases n with _ | m
      · simp at h
      rw [stride_cons]
      have hkeq : (m + 1) * k = m * k + k := by ring
      have hdrop : (t.drop (k - 1)).length = m * k := by
        simp only [List.length_drop]
        simp only [List.length_cons] at h
        omega
      rw [List.length_cons, stride_length_mul k hk (t.drop (k - 1)) m hdrop]
termination_by l => l.length
decreasing_by simp only [List.length_drop, List.length_cons]; omega

theorem stride_map (k : ℕ) (f : α → β) :
    ∀ (l : List α), stride k (l.map f) = (stride k l).map f
  | [] => by rw [List.map_nil, stride_nil, stride_nil, List.map_nil]
  | v :: t => by
      rw [List.map_cons, stride_cons, stride_cons, List.map_cons,
        ← List.map_drop, stride_map k f (t.drop (k - 1))]
termination_by l => l.length
decreasing_by simp only [List.length_drop, List.length_cons]; omega

theorem stride_drop (k : ℕ) (hk : 1 ≤ k) :
    ∀ (m : ℕ) (l : List α), (stride k l).drop m = stride k (l.drop (m * k))
  | 0, l => by simp
  | m + 1, [] => by simp [stride_nil]
  | m + 1, v :: t => by
      rw [stride_cons, List.drop_succ_cons]
      have h1 : (stride k (t.drop (k - 1))).drop m
          = stride k ((t.drop (k - 1)).drop (m * k)) :=
        stride_drop k hk m (t.drop (k - 1))
      have hmul : (m + 1) * k = m * k + k := by ring
      have h2 : (m + 1) * k = k - 1 + m * k + 1 := by omega
      rw [h1, List.drop_drop, h2, List.drop_succ_cons]

theorem stride_stride (a b : ℕ) (ha : 1 ≤ a) (hb : 1 ≤ b) :
    ∀ (l : List α), stride a (stride b l) = stride (a * b) l
  | [] => by rw [stride_nil, stride_nil, stride_nil]
  | v :: t => by
      have h2 : (a - 1) * b + b = a * b := by
        cases a with
        | zero => omega
        | succ a0 => simp [Nat.succ_mul]
      have harith : b - 1 + (a - 1) * b = a * b - 1 := by omega
      rw [stride_cons, stride_cons, stride_cons,
        stride_drop b hb (a - 1) (t.drop (b - 1)),
        stride_stride a b ha hb ((t.drop (b - 1)).drop ((a - 1) * b)),
        List.drop_drop, harith]
termination_by l => l.length
decreasing_by
  simp only [List.length_drop, List.length_cons]
  omega

end StrideLemmas

section CoincidenceLemmas

theorem boolAny_cons (s : ℚ) (ts : List ℚ) (atol v : ℚ) :
    boolAny (s :: ts) atol v
      = (decide (|v - s| ≤ atol) || boolAny ts atol v) := by
  simp [boolAny]

theorem boolAny_eq_true (ts : List ℚ) (atol v : ℚ) :
    boolAny ts atol v = true ↔ ∃ t ∈ ts, |v - t| ≤ atol := by
  simp [boolAny]

theorem boolAny_eq_false (ts : List ℚ) (atol v : ℚ) :
    boolAny ts atol v = false ↔ ∀ t ∈ ts, atol < |v - t| := by
  simp [boolAny, not_le]

theorem sepB_pairwise (g : ℚ) (hg : 0 ≤ g) :
    ∀ (l : List ℚ), sepB g l = true → l.Pairwise (fun a b => g < b - a)
  | [], _ => List.Pairwise.nil
  | [_], _ => by simp
  | a :: b :: t, h => by
      simp only [sepB, Bool.and_eq_true, decide_eq_true_eq] at h
      have hp := sepB_pairwise g hg (b :: t) h.2
      refine List.Pairwise.cons ?_ hp
      intro w hw
      rcases List.mem_cons.mp hw with rfl | hw
      · exact h.1
      · have hb := (List.pairwise_cons.mp hp).1 w hw
        linarith [h.1]

/-- Under the coincidence-separation hypothesis (all grid nodes pairwise
more than `2*tol` apart), the restriction mask built from the targets
`l[::k]` selects exactly every `k`-th entry of any array aligned with the
fine grid `l`. -/
theorem applyMask_stride_targets {α : Type} (k : ℕ) (hk : 1 ≤ k)
    (tol : ℚ) (htol : 0 ≤ tol) :
    ∀ (l : List ℚ) (v : List α),
      l.Pairwise (fun a b => 2 * tol < b - a) → v.length = l.length →
      applyMask (l.map (boolAny (stride k l) tol)) v = stride k v
  | [], v, _, hv => by
      rw [List.length_nil, List.length_eq_zero] at hv
      subst hv
      rw [List.map_nil, applyMask_nil_mask, stride_nil]
  | a :: t, v, hp, hv => by
      cases v with
      | nil => simp at hv
      | cons w u =>
        simp only [List.length_cons, Nat.succ.injEq] at hv
        obtain ⟨hat, hpt⟩ := List.pairwise_cons.mp hp
        rw [stride_cons]
        set S := stride k (t.drop (k - 1)) with hS
        have hSsub : ∀ s ∈ S, s ∈ t.drop (k - 1) := fun s hs =>
          (stride_sublist k (t.drop (k - 1))).mem hs
        have hhead : boolAny (a :: S) tol a = true := by
          rw [boolAny_eq_true]
          exact ⟨a, List.mem_cons_self a S, by simp [htol]⟩
        have hA : ∀ w' ∈ t.take (k - 1),
            boolAny (a :: S) tol w' = false := by
          intro w' hw'
          rw [boolAny_eq_false]
          intro s hs
          rcases List.mem_cons.mp hs with rfl | hsS
          · have h1 : 2 * tol < w' - s :=
              hat w' (List.mem_of_mem_take hw')
            rw [abs_of_pos (show (0:ℚ) < w' - s by linarith)]
            linarith
          · have hsd := hSsub s hsS
            have hsplit : List.Pairwise (fun a b => 2 * tol < b - a)
                (t.take (k - 1) ++ t.drop (k - 1)) := by
              rw [List.take_append_drop]
              exact hpt
            have h2 : 2 * tol < s - w' :=
              (List.pairwise_append.mp hsplit).2.2 w' hw' s hsd
            rw [abs_of_neg (show w' - s < (0:ℚ) by linarith), neg_sub]
            linarith
        have hB : ∀ w' ∈ t.drop (k - 1),
            boolAny (a :: S) tol w' = boolAny S tol w' := by
          intro w' hw'
          rw [boolAny_cons]
          have h1 : 2 * tol < w' - a := hat w' (List.mem_of_mem_drop hw')
          have h2 : ¬ |w' - a| ≤ tol := by
            rw [abs_of_pos (by linarith)]
            linarith
          simp [h2]
        calc applyMask ((a :: t).map (boolAny (a :: S) tol)) (w :: u)
            = w :: applyMask (t.map (boolAny (a :: S) tol)) u := by
              rw [List.map_cons, hhead, applyMask_cons_true]
          _ = w :: applyMask
                ((t.take (k - 1)).map (boolAny (a :: S) tol)
                  ++ (t.drop (k - 1)).map (boolAny (a :: S) tol))
                (u.take (k - 1) ++ u.drop (k - 1)) := by
              rw [← List.map_append, List.take_append_drop,
                List.take_append_drop]
          _ = w :: (applyMask ((t.take (k - 1)).map (boolAny (a :: S) tol))
                  (u.take (k - 1))
                ++ applyMask ((t.drop (k - 1)).map (boolAny (a :: S) tol))
                  (u.drop (k - 1))) := by
              rw [applyMask_append]
              simp [hv]
          _ = w :: applyMask ((t.drop (k - 1)).map (boolAny S tol))
                (u.drop (k - 1)) := by
              rw [applyMask_all_false _ _ (by
                intro b hb
                obtain ⟨w', hw', rfl⟩ := List.mem_map.mp hb
                exact hA w' hw'), List.nil_append,
                List.map_congr_left hB]
          _ = w :: stride k (u.drop (k - 1)) := by
              rw [hS, applyMask_stride_targets k hk tol htol
                (t.drop (k - 1)) (u.drop (k - 1))
                (hpt.sublist (List.drop_sublist _ _)) (by simp [hv])]
          _ = stride k (w :: u) := (stride_cons k w u).symm
termination_by l _ => l.length
decreasing_by simp only [List.length_drop, List.length_cons]; omega

end CoincidenceLemmas

section RestrictionLemmas

/-- Whenever the input field has at least as many value rows as `y`
coordinates and no value row shorter than `x`, `restriction` cannot
fail: the masked coordinates are plain filters of the fine grid and the
values are the corresponding sub-array.  (This is the success path of
the Python code, with no shape checking of its own.) -/
theorem restriction_eq_some (f : Field) (gx gy : List ℚ) (atol : ℚ)
    (h : f.y.length ≤ f.values.length)
    (hcol : ∀ row ∈ f.values, f.x.length ≤ row.length) :
    restriction f gx gy atol
      = some { x := f.x.filter (boolAny gx atol)
               y := f.y.filter (boolAny gy atol)
               values := (applyMask (f.y.map (boolAny gy atol))
                   f.values).map (applyMask (f.x.map (boolAny gx atol)))
               label := f.label ++ "-restricted"
               time_step := f.time_step } := by
  have hnb : hasTrueBeyond (f.y.map (boolAny gy atol))
      f.values.length = false :=
    hasTrueBeyond_false_of_le _ _ (by simpa using h)
  have hcol' : ((applyMask (f.y.map (boolAny gy atol)) f.values).any
      fun row => hasTrueBeyond (f.x.map (boolAny gx atol)) row.length)
      = false := by
    apply any_eq_false_of
    intro row hrm
    exact hasTrueBeyond_false_of_le _ _
      (by simpa using hcol row ((applyMask_sublist _ _).mem hrm))
  simp only [restriction, hnb, hcol', Bool.or_self, Bool.false_eq_true,
    if_false, applyMask_map_self]

/-- Restriction of a field whose targets are the strided coordinate
subsets `x[::k]`, `y[::k]`, under the separation hypothesis: the result is
exactly the strided field. -/
theorem restriction_stride (f : Field) (k : ℕ) (atol : ℚ) (hk : 1 ≤ k)
    (ht : 0 ≤ atol)
    (hx : f.x.Pairwise (fun a b => 2 * atol < b - a))
    (hy : f.y.Pairwise (fun a b => 2 * atol < b - a))
    (hvl : f.values.length = f.y.length)
    (hrow : ∀ row ∈ f.values, row.length = f.x.length) :
    restriction f (stride k f.x) (stride k f.y) atol
      = some { x := stride k f.x
               y := stride k f.y
               values := (stride k f.values).map (stride k)
               label := f.label ++ "-restricted"
               time_step := f.time_step } := by
  have hnb : hasTrueBeyond (f.y.map (boolAny (stride k f.y) atol))
      f.values.length = false :=
    hasTrueBeyond_false_of_le _ _ (by simp [hvl])
  have hcol : ((applyMask (f.y.map (boolAny (stride k f.y) atol))
      f.values).any
      fun row => hasTrueBeyond (f.x.map (boolAny (stride k f.x) atol))
        row.length) = false := by
    apply any_eq_false_of
    intro row hrm
    exact hasTrueBeyond_false_of_le _ _
      (by simp [hrow row ((applyMask_sublist _ _).mem hrm)])
  simp only [restriction, hnb, hcol, Bool.or_self, Bool.false_eq_true,
    if_false]
  rw [applyMask_stride_targets k hk atol ht f.x f.x hx rfl,
    applyMask_stride_targets k hk atol ht f.y f.y hy rfl,
    applyMask_stride_targets k hk atol ht f.y f.values hy hvl,
    List.map_congr_left (fun row hrm =>
      applyMask_stride_targets k hk atol ht f.x row hx
        (hrow row ((stride_sublist k f.values).mem hrm)))]

end RestrictionLemmas

/-- C5: restricting a GridField with well-separated strictly increasing
coordinates onto the strided target grid `(x[::k], y[::k])` yields exactly
the strided values `values[::k, ::k]`, and for `k = 1` (targets equal to
the field's own grid) the restriction keeps the coordinates and values
unchanged. -/
theorem C5_restriction_subsetting_and_identity (f : Field) (k : ℕ)
    (atol : ℚ) (hk : 1 ≤ k) (ht : 0 ≤ atol)
    (hx : sepB (2 * atol) f.x = true) (hy : sepB (2 * atol) f.y = true)
    (hvl : f.values.length = f.y.length)
    (hrow : f.values.all (fun row => row.length == f.x.length) = true) :
    restriction f (stride k f.x) (stride k f.y) atol
      = some { x := stride k f.x
               y := stride k f.y
               values := (stride k f.values).map (stride k)
               label := f.label ++ "-restricted"
               time_step := f.time_step }
    ∧ restriction f f.x f.y atol
      = some { x := f.x
               y := f.y
               values := f.values
               label := f.label ++ "-restricted"
               time_step := f.time_step } := by
  have htt : (0:ℚ) ≤ 2 * atol := by linarith
  have hx' := sepB_pairwise (2 * atol) htt f.x hx
  have hy' := sepB_pairwise (2 * atol) htt f.y hy
  have hrow' : ∀ row ∈ f.values, row.length = f.x.length := by
    intro row hr
    simpa using (List.all_eq_true.mp hrow) row hr
  refine ⟨restriction_stride f k atol hk ht hx' hy' hvl hrow', ?_⟩
  have h1 := restriction_stride f 1 atol le_rfl ht hx' hy' hvl hrow'
  rw [stride_one, stride_one, stride_one] at h1
  rw [h1]
  congr 1
  simp only [Field.mk.injEq, and_true, true_and]
  exact (List.map_congr_left fun row _ => stride_one row).trans
    (List.map_id' f.values)

/-- Witness for C5 at a concrete field with strides `k = 2` and `k = 1`
(`atol = 1e-6`). -/
theorem C5_witness :
    sepB (2 * (1/1000000 : ℚ)) [0, 1, 2, 3] = true
    ∧ (restriction
          { x := [0, 1, 2, 3], y := [0, 1],
            values := [[1, 2, 3, 4], [5, 6, 7, 8]],
            label := "test", time_step := none }
          (stride 2 [0, 1, 2, 3]) (stride 2 [0, 1]) (1/1000000)
        = some { x := stride 2 [0, 1, 2, 3]
                 y := stride 2 [0, 1]
                 values := (stride 2 [[1, 2, 3, 4], [5, 6, 7, 8]]).map
                   (stride 2)
                 label := "test-restricted"
                 time_step := none }
      ∧ restriction
          { x := [0, 1, 2, 3], y := [0, 1],
            values := [[1, 2, 3, 4], [5, 6, 7, 8]],
            label := "test", time_step := none }
          [0, 1, 2, 3] [0, 1] (1/1000000)
        = some { x := [0, 1, 2, 3]
                 y := [0, 1]
                 values := [[1, 2, 3, 4], [5, 6, 7, 8]]
                 label := "test-restricted"
                 time_step := none }) :=
  ⟨by norm_num [sepB],
   C5_restriction_subsetting_and_identity
     { x := [0, 1, 2, 3], y := [0, 1],
       values := [[1, 2, 3, 4], [5, 6, 7, 8]],
       label := "test", time_step := none } 2 (1/1000000)
     (by norm_num) (by norm_num) (by norm_num [sepB])
     (by norm_num [sepB]) (by rfl) (by rfl)⟩

section ErasedTargetLemmas

theorem applyMask_take {α : Type} :
    ∀ (m : List Bool) (l : List α), applyMask m (l.take m.length) = applyMask m l
  | [], l => by simp [applyMask_nil_mask]
  | b :: ms, [] => by simp [applyMask_nil_list]
  | b :: ms, v :: l => by
      rw [List.length_cons, List.take_succ_cons]
      cases b with
      | true => rw [applyMask_cons_true, applyMask_cons_true, applyMask_take]
      | false => rw [applyMask_cons_false, applyMask_cons_false, applyMask_take]

/-- Removing a target that no fine-grid node matches does not change the
restriction mask entry of any fine-grid node. -/
theorem boolAny_erase_of_no_match (gx : List ℚ) (atol t v : ℚ)
    (h : ¬ |v - t| ≤ atol) :
    boolAny (gx.erase t) atol v = boolAny gx atol v := by
  rcases hb : boolAny gx atol v with _ | _
  · rw [boolAny_eq_false] at hb ⊢
    intro u hu
    exact hb u (List.mem_of_mem_erase hu)
  · rw [boolAny_eq_true] at hb ⊢
    obtain ⟨u, hu, huv⟩ := hb
    have hne : u ≠ t := fun he => h (he ▸ huv)
    exact ⟨u, (List.mem_erase_of_ne hne).mpr hu, huv⟩

end ErasedTargetLemmas

/-- C1 (amended): when a target coordinate has zero matches in the fine
grid (within `atol`), `restriction` on a shape-consistent GridField
raises no error at all: it silently returns the field of fine-grid
coordinates that do match some target — possibly fewer than the target
grid — and the unmatched target contributes nothing (erasing it from the
targets gives the same result).  The code has no `GridMismatchError`. -/
theorem C1_restriction_silent_on_zero_match (f : Field) (gx gy : List ℚ)
    (atol : ℚ) (hvl : f.values.length = f.y.length)
    (hrowl : ∀ row ∈ f.values, row.length = f.x.length)
    (t : ℚ) (ht : t ∈ gx) (h0 : matchCount f.x atol t = 0) :
    restriction f gx gy atol
      = some { x := f.x.filter (boolAny gx atol)
               y := f.y.filter (boolAny gy atol)
               values := (applyMask (f.y.map (boolAny gy atol))
                   f.values).map (applyMask (f.x.map (boolAny gx atol)))
               label := f.label ++ "-restricted"
               time_step := f.time_step }
    ∧ restriction f gx gy atol = restriction f (gx.erase t) gy atol := by
  have hfil0 : f.x.filter (fun v => decide (|v - t| ≤ atol)) = [] := by
    rw [← List.length_eq_zero]
    simpa [matchCount] using h0
  have hno : ∀ v ∈ f.x, ¬ |v - t| ≤ atol := by
    intro v hv
    have := List.filter_eq_nil_iff.mp hfil0 v hv
    simpa using this
  have hmask : f.x.map (boolAny gx atol)
      = f.x.map (boolAny (gx.erase t) atol) :=
    List.map_congr_left fun v hv =>
      (boolAny_erase_of_no_match gx atol t v (hno v hv)).symm
  have hfil : f.x.filter (boolAny gx atol)
      = f.x.filter (boolAny (gx.erase t) atol) :=
    List.filter_congr fun v hv =>
      (boolAny_erase_of_no_match gx atol t v (hno v hv)).symm
  have hle : f.y.length ≤ f.values.length := le_of_eq hvl.symm
  have hcol : ∀ row ∈ f.values, f.x.length ≤ row.length :=
    fun row hm => le_of_eq (hrowl row hm).symm
  refine ⟨restriction_eq_some f gx gy atol hle hcol, ?_⟩
  rw [restriction_eq_some f gx gy atol hle hcol,
    restriction_eq_some f (gx.erase t) gy atol hle hcol, hfil, hmask]

/-- Counterexample to C1 as stated: the target `1/2` coincides with no
node of the fine grid `[0, 1]` within `1e-6`, yet `restriction` raises
nothing — it returns a field with zero `x`-coordinates (fewer than the
one-coordinate target grid). -/
theorem C1_counterexample :
    matchCount [0, 1] (1/1000000) (1/2) = 0
    ∧ restriction { x := [0, 1], y := [0], values := [[3, 4]],
                    label := "f", time_step := none } [1/2] [0] (1/1000000)
      = some { x := [], y := [0], values := [[]],
               label := "f-restricted", time_step := none } := by
  constructor
  · norm_num [matchCount, lt_abs, abs_sub_le_iff]
  · norm_num [restriction, boolAny, hasTrueBeyond, applyMask,
      abs_sub_le_iff, abs_le]
    rfl

/-- Witness for C1 at a concrete field and unmatched target. -/
theorem C1_witness :
    matchCount [0, 1] (1/1000000) (1/2) = 0
    ∧ restriction { x := [0, 1], y := [0], values := [[3, 4]],
                    label := "f", time_step := none } [1/2] [0] (1/1000000)
      = restriction { x := [0, 1], y := [0], values := [[3, 4]],
                      label := "f", time_step := none }
          (List.erase [1/2] (1/2)) [0] (1/1000000) :=
  ⟨by norm_num [matchCount, lt_abs, abs_sub_le_iff],
   (C1_restriction_silent_on_zero_match
     { x := [0, 1], y := [0], values := [[3, 4]],
       label := "f", time_step := none } [1/2] [0] (1/1000000)
     (by rfl) (by simp) (1/2) (by norm_num)
     (by norm_num [matchCount, lt_abs, abs_sub_le_iff])).2⟩

/-- C8 (amended): `restriction` performs no eager shape validation and
the code has no `ShapeError`.  Value rows beyond `len(y)` are silently
ignored — the call is indistinguishable from restricting the
row-truncated field.  With no selected row shorter than `x`, the call
silently succeeds even though the shape invariant is violated.  The only
failures are `IndexError`s raised during selection: when the `x`-mask
selects a column index past the end of a selected row, the call dies
with an `IndexError` (modelled as `none`), never a `ShapeError`. -/
theorem C8_no_shape_check (f : Field) (gx gy : List ℚ) (atol : ℚ) :
    (f.y.length ≤ f.values.length →
      restriction f gx gy atol
        = restriction { x := f.x, y := f.y,
                        values := f.values.take f.y.length,
                        label := f.label, time_step := f.time_step }
            gx gy atol)
    ∧ (f.y.length ≤ f.values.length →
        (∀ row ∈ f.values, f.x.length ≤ row.length) →
        (restriction f gx gy atol).isSome = true)
    ∧ (((applyMask (f.y.map (boolAny gy atol)) f.values).any
          fun row => hasTrueBeyond (f.x.map (boolAny gx atol)) row.length)
          = true →
        restriction f gx gy atol = none) := by
  refine ⟨?_, ?_, ?_⟩
  · intro h
    have hvals : applyMask (f.y.map (boolAny gy atol))
        (f.values.take f.y.length)
        = applyMask (f.y.map (boolAny gy atol)) f.values := by
      have hl : f.y.length = (f.y.map (boolAny gy atol)).length := by
        rw [List.length_map]
      rw [hl, applyMask_take]
    have g1 : hasTrueBeyond (f.y.map (boolAny gy atol))
        f.values.length = false :=
      hasTrueBeyond_false_of_le _ _ (by simpa using h)
    have g1' : hasTrueBeyond (f.y.map (boolAny gy atol))
        (f.values.take f.y.length).length = false :=
      hasTrueBeyond_false_of_le _ _ (by
        simp only [List.length_map, List.length_take]
        omega)
    simp only [restriction, g1, g1', hvals, Bool.false_or]
  · intro h hcol
    rw [restriction_eq_some f gx gy atol h hcol]
    rfl
  · intro hbad
    simp only [restriction, hbad, Bool.or_true]
    rfl

/-- Counterexample to C8 as stated: this field's `values` has 2 rows but
`len(y) = 1` (the shape invariant is violated), yet `restriction` raises
nothing — the extra row is silently dropped. -/
theorem C8_counterexample :
    [[(1:ℚ)], [2]].length ≠ [(0:ℚ)].length
    ∧ restriction { x := [0], y := [0], values := [[1], [2]],
                    label := "f", time_step := none } [0] [0] (1/1000000)
      = some { x := [0], y := [0], values := [[1]],
               label := "f-restricted", time_step := none } := by
  constructor
  · simp
  · norm_num [restriction, boolAny, hasTrueBeyond, applyMask,
      abs_sub_le_iff, abs_le]
    rfl

/-- Witness for C8: a shape-violating field with an extra row restricts
silently (rows truncated, call succeeds), while a field whose single row
is shorter than `x` dies with the column `IndexError` when the mask
selects the missing column. -/
theorem C8_witness :
    restriction { x := [0], y := [0], values := [[1], [2]],
                  label := "f", time_step := none } [0] [0] (1/1000000)
      = restriction { x := [0], y := [0],
                      values := List.take (List.length [(0:ℚ)])
                        [[1], [2]],
                      label := "f", time_step := none } [0] [0]
          (1/1000000)
    ∧ (restriction { x := [0], y := [0], values := [[1], [2]],
                     label := "f", time_step := none } [0] [0]
        (1/1000000)).isSome = true
    ∧ restriction { x := [0, 1], y := [0], values := [[1]],
                    label := "g", time_step := none } [0, 1] [0]
        (1/1000000) = none :=
  ⟨(C8_no_shape_check
      { x := [0], y := [0], values := [[1], [2]],
        label := "f", time_step := none } [0] [0] (1/1000000)).1
    (by norm_num),
   (C8_no_shape_check
      { x := [0], y := [0], values := [[1], [2]],
        label := "f", time_step := none } [0] [0] (1/1000000)).2.1
    (by norm_num) (by simp),
   (C8_no_shape_check
      { x := [0, 1], y := [0], values := [[1]],
        label := "g", time_step := none } [0, 1] [0] (1/1000000)).2.2
    (by norm_num [boolAny, applyMask, hasTrueBeyond,
        abs_sub_le_iff, abs_le])⟩

/-- C6 (amended): under the shape invariant, `restriction` always
succeeds and returns the fine-grid coordinates that match at least one
target, in fine-grid order; its values array has shape
`(len(result.y), len(result.x))`, and every returned coordinate lies
within `atol` of some target.  (The result coincides with the target grid
only when the matching is bijective and order-aligned; targets sharing a
match, or listed out of fine-grid order, yield a shorter or reordered
result.) -/
theorem C6_restriction_filter_shape (f : Field) (gx gy : List ℚ)
    (atol : ℚ) (hvl : f.values.length = f.y.length)
    (hrow : ∀ row ∈ f.values, row.length = f.x.length) :
    ∃ f', restriction f gx gy atol = some f'
      ∧ f'.x = f.x.filter (boolAny gx atol)
      ∧ f'.y = f.y.filter (boolAny gy atol)
      ∧ f'.values.length = f'.y.length
      ∧ (∀ row ∈ f'.values, row.length = f'.x.length)
      ∧ (∀ v ∈ f'.x, ∃ u ∈ gx, |v - u| ≤ atol)
      ∧ (∀ v ∈ f'.y, ∃ u ∈ gy, |v - u| ≤ atol) := by
  refine ⟨_, restriction_eq_some f gx gy atol (le_of_eq hvl.symm)
    (fun row hm => le_of_eq (hrow row hm).symm),
    rfl, rfl, ?_, ?_, ?_, ?_⟩
  · show ((applyMask (f.y.map (boolAny gy atol)) f.values).map
        (applyMask (f.x.map (boolAny gx atol)))).length
      = (f.y.filter (boolAny gy atol)).length
    rw [List.length_map, ← applyMask_map_self (boolAny gy atol) f.y]
    exact applyMask_length_congr _ f.values f.y hvl
  · intro row hr
    rw [List.mem_map] at hr
    obtain ⟨row0, hr0, rfl⟩ := hr
    have hmem : row0 ∈ f.values := (applyMask_sublist _ _).mem hr0
    show (applyMask (f.x.map (boolAny gx atol)) row0).length
      = (f.x.filter (boolAny gx atol)).length
    rw [← applyMask_map_self (boolAny gx atol) f.x]
    exact applyMask_length_congr _ row0 f.x (hrow row0 hmem)
  · intro v hv
    exact (boolAny_eq_true gx atol v).mp (List.mem_filter.mp hv).2
  · intro v hv
    exact (boolAny_eq_true gy atol v).mp (List.mem_filter.mp hv).2

/-- Counterexample to C6 as stated: both targets `0` and `1e-7` match
exactly one fine-grid node each (the node `0`, within `1e-6`), the shape
invariant holds, yet the restricted field has one `x`-coordinate where
the target grid has two — the output grid does not equal the target grid. -/
theorem C6_counterexample :
    matchCount [(0:ℚ)] (1/1000000) 0 = 1
    ∧ matchCount [(0:ℚ)] (1/1000000) (1/10000000) = 1
    ∧ restriction { x := [0], y := [0], values := [[5]],
                    label := "f", time_step := none }
        [0, 1/10000000] [0] (1/1000000)
      = some { x := [0], y := [0], values := [[5]],
               label := "f-restricted", time_step := none }
    ∧ List.length [(0:ℚ)] ≠ List.length [(0:ℚ), 1/10000000] := by
  refine ⟨?_, ?_, ?_, ?_⟩
  · norm_num [matchCount, abs_sub_le_iff]
  · norm_num [matchCount, abs_sub_le_iff]
  · norm_num [restriction, boolAny, hasTrueBeyond, applyMask,
      abs_sub_le_iff, abs_le]
    rfl
  · simp

/-- Witness for C6 at a concrete field and target grid. -/
theorem C6_witness :
    ∃ f', restriction { x := [0, 1], y := [0, 1],
                        values := [[1, 2], [3, 4]],
                        label := "g", time_step := none } [1] [0]
        (1/1000000) = some f'
      ∧ f'.x = [0, 1].filter (boolAny [1] (1/1000000))
      ∧ f'.y = [0, 1].filter (boolAny [0] (1/1000000))
      ∧ f'.values.length = f'.y.length
      ∧ (∀ row ∈ f'.values, row.length = f'.x.length)
      ∧ (∀ v ∈ f'.x, ∃ u ∈ [(1:ℚ)], |v - u| ≤ (1/1000000 : ℚ))
      ∧ (∀ v ∈ f'.y, ∃ u ∈ [(0:ℚ)], |v - u| ≤ (1/1000000 : ℚ)) :=
  C6_restriction_filter_shape
    { x := [0, 1], y := [0, 1], values := [[1, 2], [3, 4]],
      label := "g", time_step := none } [1] [0] (1/1000000)
    (by rfl) (by simp)

section NormLemmas

theorem rowSq_nonneg (r : List ℚ) : 0 ≤ (r.map (fun v => v * v)).sum := by
  apply List.sum_nonneg
  intro x hx
  obtain ⟨v, _, rfl⟩ := List.mem_map.mp hx
  exact mul_self_nonneg v

theorem sumSq_cons (r : List ℚ) (A : List (List ℚ)) :
    sumSq (r :: A) = (r.map (fun v => v * v)).sum + sumSq A := by
  simp [sumSq]

theorem sumSq_nonneg (A : List (List ℚ)) : 0 ≤ sumSq A := by
  induction A with
  | nil => simp [sumSq]
  | cons r A ih =>
    rw [sumSq_cons]
    have := rowSq_nonneg r
    linarith

theorem rowSq_eq_zero_iff (r : List ℚ) :
    (r.map (fun v => v * v)).sum = 0 ↔ ∀ v ∈ r, v = 0 := by
  induction r with
  | nil => simp
  | cons v t ih =>
    simp only [List.map_cons, List.sum_cons, List.mem_cons]
    constructor
    · intro h
      have h1 : 0 ≤ v * v := mul_self_nonneg v
      have h2 := rowSq_nonneg t
      have hv : v * v = 0 := by linarith
      have hv0 : v = 0 := by
        exact mul_self_eq_zero.mp hv
      refine fun w hw => ?_
      rcases hw with rfl | hw
      · exact hv0
      · exact (ih.mp (by linarith [hv])) w hw
    · intro h
      rw [(ih.mpr fun w hw => h w (Or.inr hw)), h v (Or.inl rfl)]
      ring

theorem sumSq_eq_zero_iff (A : List (List ℚ)) :
    sumSq A = 0 ↔ ∀ row ∈ A, ∀ v ∈ row, v = 0 := by
  induction A with
  | nil => simp [sumSq]
  | cons r A ih =>
    rw [sumSq_cons]
    simp only [List.mem_cons]
    constructor
    · intro h
      have h1 := rowSq_nonneg r
      have h2 := sumSq_nonneg A
      have hr : (r.map (fun v => v * v)).sum = 0 := by linarith
      intro row hrow
      rcases hrow with rfl | hrow
      · exact (rowSq_eq_zero_iff row).mp hr
      · exact (ih.mp (by linarith)) row hrow
    · intro h
      rw [(rowSq_eq_zero_iff r).mpr (h r (Or.inl rfl)),
        ih.mpr fun row hrow => h row (Or.inr hrow)]
      ring

theorem foldr_max_nonneg (l : List ℚ) : 0 ≤ l.foldr max 0 := by
  induction l with
  | nil => simp
  | cons a t ih => exact le_trans ih (le_max_right a _)

theorem foldr_max_eq_zero_iff (l : List ℚ) (h : ∀ a ∈ l, 0 ≤ a) :
    l.foldr max 0 = 0 ↔ ∀ a ∈ l, a = 0 := by
  induction l with
  | nil => simp
  | cons a t ih =>
    rw [List.foldr_cons]
    constructor
    · intro hm
      have ha : a ≤ 0 := le_of_le_of_eq (le_max_left a (t.foldr max 0)) hm
      have ht : t.foldr max 0 = 0 :=
        le_antisymm (le_of_le_of_eq (le_max_right a (t.foldr max 0)) hm)
          (foldr_max_nonneg t)
      have ht0 :=
        (ih fun b hb => h b (List.mem_cons_of_mem a hb)).mp ht
      intro b hb
      rcases List.mem_cons.mp hb with rfl | hb
      · exact le_antisymm ha (h b (List.mem_cons_self b t))
      · exact ht0 b hb
    · intro hb
      rw [hb a (List.mem_cons_self a t),
        (ih fun b hbm => h b (List.mem_cons_of_mem a hbm)).mpr
          fun b hbm => hb b (List.mem_cons_of_mem a hbm)]
      simp

theorem maxAbs_nonneg (A : List (List ℚ)) : 0 ≤ maxAbs A :=
  foldr_max_nonneg _

theorem maxAbs_eq_zero_iff (A : List (List ℚ)) :
    maxAbs A = 0 ↔ ∀ row ∈ A, ∀ v ∈ row, v = 0 := by
  unfold maxAbs
  rw [foldr_max_eq_zero_iff _ (by
    intro a ha
    obtain ⟨row, _, rfl⟩ := List.mem_map.mp ha
    exact foldr_max_nonneg _)]
  constructor
  · intro h row hrow
    have h1 := h _ (List.mem_map.mpr ⟨row, hrow, rfl⟩)
    intro v hv
    have h2 := foldr_max_eq_zero_iff (row.map (fun v => |v|)) (by
      intro a ha
      obtain ⟨w, _, rfl⟩ := List.mem_map.mp ha
      exact abs_nonneg w)
    exact abs_eq_zero.mp ((h2.mp h1) _ (List.mem_map.mpr ⟨v, hv, rfl⟩))
  · intro h a ha
    obtain ⟨row, hrow, rfl⟩ := List.mem_map.mp ha
    rw [foldr_max_eq_zero_iff _ (by
      intro a ha
      obtain ⟨w, _, rfl⟩ := List.mem_map.mp ha
      exact abs_nonneg w)]
    intro a ha
    obtain ⟨w, hw, rfl⟩ := List.mem_map.mp ha
    rw [h row hrow w hw]
    simp

end NormLemmas

section ShapeLemmas

theorem sameShape_cons (r s : List ℚ) (A B : List (List ℚ)) :
    sameShape (r :: A) (s :: B) = true
      ↔ r.length = s.length ∧ sameShape A B = true := by
  simp only [sameShape, List.zip_cons_cons, List.all_cons,
    List.length_cons, Bool.and_eq_true, beq_iff_eq, Nat.add_right_cancel_iff]
  tauto

end ShapeLemmas

/-- C10: with both restrictions succeeding and the shapes matching, any
`norm` string other than `'L2'` and `'Linf'` makes `get_difference` fail
with `KeyError` (the lookup in the two-entry `norms` dictionary happens
after the restrictions and the subtraction); and a float result is only
ever produced for `'L2'` or `'Linf'`. -/
theorem C10_get_difference_unknown_norm (self exact mask a b : Field)
    (norm : String)
    (ha : restriction self mask.x mask.y (1/1000000) = some a)
    (hb : restriction exact mask.x mask.y (1/1000000) = some b)
    (hs : sameShape a.values b.values = true)
    (h2 : norm ≠ "L2") (hinf : norm ≠ "Linf") :
    get_difference self exact mask norm = Except.error PyErr.keyError
    ∧ ∀ (s e m : Field) (nrm : String) (res : ℝ),
        get_difference s e m nrm = Except.ok res →
        nrm = "L2" ∨ nrm = "Linf" := by
  constructor
  · simp only [get_difference, ha, hb, npSub_of_sameShape _ _ hs]
  · intro s e m nrm res h
    simp only [get_difference] at h
    rcases hr1 : restriction s m.x m.y (1/1000000) with _ | a1
    · rw [hr1] at h
      exact absurd h (by simp)
    rcases hr2 : restriction e m.x m.y (1/1000000) with _ | b1
    · rw [hr1, hr2] at h
      exact absurd h (by simp)
    rw [hr1, hr2] at h
    dsimp only at h
    rcases hnp : npSub a1.values b1.values with _ | d
    · rw [hnp] at h
      exact absurd h (by simp)
    · rw [hnp] at h
      dsimp only at h
      split at h <;> simp_all

/-- Witness for C10 with the unknown norm string `"L1"`. -/
theorem C10_witness :
    get_difference { x := [0], y := [0], values := [[1]],
                     label := "a", time_step := none }
      { x := [0], y := [0], values := [[2]],
        label := "b", time_step := none }
      { x := [0], y := [0], values := [[1]],
        label := "a", time_step := none } "L1"
      = Except.error PyErr.keyError :=
  (C10_get_difference_unknown_norm
    { x := [0], y := [0], values := [[1]], label := "a", time_step := none }
    { x := [0], y := [0], values := [[2]], label := "b", time_step := none }
    { x := [0], y := [0], values := [[1]], label := "a", time_step := none }
    { x := [0], y := [0], values := [[1]],
      label := "a-restricted", time_step := none }
    { x := [0], y := [0], values := [[2]],
      label := "b-restricted", time_step := none } "L1"
    (by norm_num [restriction, boolAny, hasTrueBeyond, applyMask,
        abs_sub_le_iff, abs_le]
        rfl)
    (by norm_num [restriction, boolAny, hasTrueBeyond, applyMask,
        abs_sub_le_iff, abs_le]
        rfl)
    (by rfl) (by simp) (by simp)).1

section NpOrderLemmas

theorem npOrder_posInf (n1 n2 r : ℝ) (h1 : n1 ≠ 0) (h2 : n2 = 0)
    (hr : 1 < r) : npOrder n1 n2 r = NpFloat.posInf := by
  unfold npOrder npDivNN
  rw [if_pos h2, if_neg h1]
  simp only [npLog, npDivFin]
  rw [if_neg (not_lt.mpr (le_of_lt (Real.log_pos hr)))]

theorem npOrder_nan (r : ℝ) : npOrder 0 0 r = NpFloat.nan := by
  unfold npOrder npDivNN
  rw [if_pos rfl, if_pos rfl]
  rfl

theorem npOrder_negInf (n2 r : ℝ) (h2 : n2 ≠ 0) (hr : 1 < r) :
    npOrder 0 n2 r = NpFloat.negInf := by
  unfold npOrder npDivNN
  rw [if_neg h2, zero_div]
  simp only [npLog]
  rw [if_neg (lt_irrefl (0:ℝ))]
  simp only [if_true]
  simp only [npDivFin]
  rw [if_neg (not_lt.mpr (le_of_lt (Real.log_pos hr)))]

theorem npOrder_val (n1 n2 r : ℝ) (h1 : 0 < n1) (h2 : 0 < n2)
    (hr : 1 < r) :
    npOrder n1 n2 r = NpFloat.val (Real.log (n1 / n2) / Real.log r) := by
  unfold npOrder npDivNN
  rw [if_neg h2.ne.symm]
  have hq : 0 < n1 / n2 := div_pos h1 h2
  simp only [npLog]
  rw [if_neg (not_lt.mpr (le_of_lt hq)), if_neg hq.ne.symm]
  simp only [npDivFin]
  rw [if_neg (Real.log_pos hr).ne.symm]

theorem npOrder_self (n r : ℝ) (hn : 0 < n) (hr : 1 < r) :
    npOrder n n r = NpFloat.val 0 := by
  rw [npOrder_val n n r hn hn hr, div_self hn.ne.symm, Real.log_one,
    zero_div]

theorem npOrder_ratio (n r : ℝ) (hn : 0 < n) (hr : 1 < r) :
    npOrder (r * n) n r = NpFloat.val 1 := by
  have hrpos : (0:ℝ) < r := lt_trans one_pos hr
  rw [npOrder_val (r * n) n r (by positivity) hn hr, mul_div_assoc,
    div_self hn.ne.symm, mul_one, div_self (Real.log_pos hr).ne.symm]

theorem frobNorm_nonneg (A : List (List ℚ)) : 0 ≤ frobNorm A :=
  Real.sqrt_nonneg _

theorem frobNorm_zero_of (A : List (List ℚ)) (h : sumSq A = 0) :
    frobNorm A = 0 := by
  unfold frobNorm
  rw [h]
  simp

theorem frobNorm_pos_of (A : List (List ℚ)) (h : sumSq A ≠ 0) :
    0 < frobNorm A := by
  unfold frobNorm
  apply Real.sqrt_pos.mpr
  have h0 := sumSq_nonneg A
  have : (0:ℝ) ≤ (sumSq A : ℝ) := by exact_mod_cast h0
  have hne : (sumSq A : ℝ) ≠ 0 := by exact_mod_cast h
  exact lt_of_le_of_ne this (Ne.symm hne)

theorem maxAbs_zero_of_sumSq (A : List (List ℚ)) (h : sumSq A = 0) :
    maxAbs A = 0 :=
  (maxAbs_eq_zero_iff A).mpr ((sumSq_eq_zero_iff A).mp h)

theorem maxAbs_pos_of_sumSq (A : List (List ℚ)) (h : sumSq A ≠ 0) :
    0 < maxAbs A := by
  have hne : maxAbs A ≠ 0 := fun hz =>
    h ((sumSq_eq_zero_iff A).mpr ((maxAbs_eq_zero_iff A).mp hz))
  exact lt_of_le_of_ne (maxAbs_nonneg A) (Ne.symm hne)

end NpOrderLemmas

/-- The reduction of `get_observed_order` (L2 norm) on its success path:
once the three restrictions succeed with matching shapes, the result is
`npOrder` of the Frobenius norms of the two difference arrays. -/
theorem get_observed_order_reduce_L2
    (coarse medium fine : Field) (ratio : ℚ) (gx gy : List ℚ) (atol : ℚ)
    (c m f : Field)
    (hc : restriction coarse gx gy atol = some c)
    (hm : restriction medium gx gy atol = some m)
    (hf : restriction fine gx gy atol = some f)
    (hs1 : sameShape m.values c.values = true)
    (hs2 : sameShape f.values m.values = true) :
    get_observed_order false coarse medium fine ratio gx gy atol
      = some (npOrder (frobNorm (matSub m.values c.values))
          (frobNorm (matSub f.values m.values)) ((ratio : ℝ))) := by
  simp [get_observed_order, hc, hm, hf,
    npSub_of_sameShape _ _ hs1, npSub_of_sameShape _ _ hs2]

/-- The reduction of `get_observed_order` (Linf norm) on its success
path. -/
theorem get_observed_order_reduce_Linf
    (coarse medium fine : Field) (ratio : ℚ) (gx gy : List ℚ) (atol : ℚ)
    (c m f : Field)
    (hc : restriction coarse gx gy atol = some c)
    (hm : restriction medium gx gy atol = some m)
    (hf : restriction fine gx gy atol = some f)
    (hs1 : sameShape m.values c.values = true)
    (hs2 : sameShape f.values m.values = true) :
    get_observed_order true coarse medium fine ratio gx gy atol
      = some (npOrder ((maxAbs (matSub m.values c.values) : ℝ))
          ((maxAbs (matSub f.values m.values) : ℝ)) ((ratio : ℝ))) := by
  simp [get_observed_order, hc, hm, hf,
    npSub_of_sameShape _ _ hs1, npSub_of_sameShape _ _ hs2]

/-- Degenerate cases of the observed-order computation: with `d2` (or
`d1`) identically zero, the code returns `inf`, `-inf` or `nan` — it
never raises. -/
theorem observed_order_degenerate_cases (coarse medium fine : Field)
    (ratio : ℚ) (gx gy : List ℚ) (atol : ℚ) (c m f : Field)
    (hc : restriction coarse gx gy atol = some c)
    (hm : restriction medium gx gy atol = some m)
    (hf : restriction fine gx gy atol = some f)
    (hs1 : sameShape m.values c.values = true)
    (hs2 : sameShape f.values m.values = true)
    (hr : 1 < ratio) :
    (sumSq (matSub f.values m.values) = 0 →
      sumSq (matSub m.values c.values) ≠ 0 →
      get_observed_order false coarse medium fine ratio gx gy atol
          = some NpFloat.posInf
        ∧ get_observed_order true coarse medium fine ratio gx gy atol
          = some NpFloat.posInf)
    ∧ (sumSq (matSub f.values m.values) = 0 →
        sumSq (matSub m.values c.values) = 0 →
        get_observed_order false coarse medium fine ratio gx gy atol
            = some NpFloat.nan
          ∧ get_observed_order true coarse medium fine ratio gx gy atol
            = some NpFloat.nan)
    ∧ (sumSq (matSub m.values c.values) = 0 →
        sumSq (matSub f.values m.values) ≠ 0 →
        get_observed_order false coarse medium fine ratio gx gy atol
            = some NpFloat.negInf
          ∧ get_observed_order true coarse medium fine ratio gx gy atol
            = some NpFloat.negInf) := by
  have hrr : (1:ℝ) < (ratio : ℝ) := by exact_mod_cast hr
  have hL2 := get_observed_order_reduce_L2 coarse medium fine ratio
    gx gy atol c m f hc hm hf hs1 hs2
  have hLi := get_observed_order_reduce_Linf coarse medium fine ratio
    gx gy atol c m f hc hm hf hs1 hs2
  refine ⟨?_, ?_, ?_⟩
  · intro h2 h1
    constructor
    · rw [hL2, npOrder_posInf _ _ _ (frobNorm_pos_of _ h1).ne.symm
        (frobNorm_zero_of _ h2) hrr]
    · rw [hLi, npOrder_posInf _ _ _
        (by exact_mod_cast (maxAbs_pos_of_sumSq _ h1).ne.symm)
        (by exact_mod_cast maxAbs_zero_of_sumSq _ h2) hrr]
  · intro h2 h1
    constructor
    · rw [hL2, frobNorm_zero_of _ h1, frobNorm_zero_of _ h2,
        npOrder_nan]
    · rw [hLi, maxAbs_zero_of_sumSq _ h1, maxAbs_zero_of_sumSq _ h2]
      norm_num [npOrder_nan]
  · intro h1 h2
    constructor
    · rw [hL2, frobNorm_zero_of _ h1, npOrder_negInf _ _
        (frobNorm_pos_of _ h2).ne.symm hrr]
    · rw [hLi, maxAbs_zero_of_sumSq _ h1]
      rw [show ((0:ℚ):ℝ) = (0:ℝ) from Rat.cast_zero]
      rw [npOrder_negInf _ _
        (by exact_mod_cast (maxAbs_pos_of_sumSq _ h2).ne.symm) hrr]

/-- C2 (amended): the observed-order computation raises nothing in the
degenerate cases.  When `d2` is identically zero it silently returns
`+inf` (if `d1` is not identically zero) or `nan` (if `d1` is also
zero); when `d1` is identically zero and `d2` is not, it silently
returns `-inf`.  There is no `DegenerateConvergenceError` in the code. -/
theorem C2_observed_order_no_degenerate_error
    (coarse medium fine : Field)
    (ratio : ℚ) (gx gy : List ℚ) (atol : ℚ) (c m f : Field)
    (hc : restriction coarse gx gy atol = some c)
    (hm : restriction medium gx gy atol = some m)
    (hf : restriction fine gx gy atol = some f)
    (hs1 : sameShape m.values c.values = true)
    (hs2 : sameShape f.values m.values = true)
    (hr : 1 < ratio) :
    (sumSq (matSub f.values m.values) = 0 →
      sumSq (matSub m.values c.values) ≠ 0 →
      get_observed_order false coarse medium fine ratio gx gy atol
          = some NpFloat.posInf
        ∧ get_observed_order true coarse medium fine ratio gx gy atol
          = some NpFloat.posInf)
    ∧ (sumSq (matSub f.values m.values) = 0 →
        sumSq (matSub m.values c.values) = 0 →
        get_observed_order false coarse medium fine ratio gx gy atol
            = some NpFloat.nan
          ∧ get_observed_order true coarse medium fine ratio gx gy atol
            = some NpFloat.nan)
    ∧ (sumSq (matSub m.values c.values) = 0 →
        sumSq (matSub f.values m.values) ≠ 0 →
        get_observed_order false coarse medium fine ratio gx gy atol
            = some NpFloat.negInf
          ∧ get_observed_order true coarse medium fine ratio gx gy atol
            = some NpFloat.negInf) :=
  observed_order_degenerate_cases coarse medium fine ratio gx gy atol
    c m f hc hm hf hs1 hs2 hr

/-- Counterexample to C2 as stated: `fine = medium` (so `d2` is
identically zero) with `coarse` different, yet the code returns `+inf`
in both norms instead of raising `DegenerateConvergenceError`. -/
theorem C2_counterexample :
    get_observed_order false
        { x := [0, 1], y := [0, 1], values := [[0, 0], [0, 0]],
          label := "c", time_step := none }
        { x := [0, 1], y := [0, 1], values := [[1, 1], [1, 1]],
          label := "m", time_step := none }
        { x := [0, 1], y := [0, 1], values := [[1, 1], [1, 1]],
          label := "f", time_step := none } 3 [0, 1] [0, 1] (1/1000000)
      = some NpFloat.posInf
    ∧ get_observed_order true
        { x := [0, 1], y := [0, 1], values := [[0, 0], [0, 0]],
          label := "c", time_step := none }
        { x := [0, 1], y := [0, 1], values := [[1, 1], [1, 1]],
          label := "m", time_step := none }
        { x := [0, 1], y := [0, 1], values := [[1, 1], [1, 1]],
          label := "f", time_step := none } 3 [0, 1] [0, 1] (1/1000000)
      = some NpFloat.posInf := by
  have hc : restriction
      { x := [0, 1], y := [0, 1], values := [[0, 0], [0, 0]],
        label := "c", time_step := none } [0, 1] [0, 1] (1/1000000)
      = some { x := [0, 1], y := [0, 1], values := [[0, 0], [0, 0]],
               label := "c-restricted", time_step := none } := by
    norm_num [restriction, boolAny, hasTrueBeyond, applyMask,
      abs_sub_le_iff, abs_le]
    rfl
  have hm : restriction
      { x := [0, 1], y := [0, 1], values := [[1, 1], [1, 1]],
        label := "m", time_step := none } [0, 1] [0, 1] (1/1000000)
      = some { x := [0, 1], y := [0, 1], values := [[1, 1], [1, 1]],
               label := "m-restricted", time_step := none } := by
    norm_num [restriction, boolAny, hasTrueBeyond, applyMask,
      abs_sub_le_iff, abs_le]
    rfl
  have hf : restriction
      { x := [0, 1], y := [0, 1], values := [[1, 1], [1, 1]],
        label := "f", time_step := none } [0, 1] [0, 1] (1/1000000)
      = some { x := [0, 1], y := [0, 1], values := [[1, 1], [1, 1]],
               label := "f-restricted", time_step := none } := by
    norm_num [restriction, boolAny, hasTrueBeyond, applyMask,
      abs_sub_le_iff, abs_le]
    rfl
  exact (observed_order_degenerate_cases _ _ _ 3 [0, 1] [0, 1]
    (1/1000000) _ _ _ hc hm hf (by rfl) (by rfl) (by norm_num)).1
    (by norm_num [matSub, sumSq]) (by norm_num [matSub, sumSq])

/-- Witness for C2 (the `d1`-zero case): `coarse = medium` makes the
code return `-inf` in both norms. -/
theorem C2_witness :
    get_observed_order false
        { x := [0, 1], y := [0, 1], values := [[1, 1], [1, 1]],
          label := "c", time_step := none }
        { x := [0, 1], y := [0, 1], values := [[1, 1], [1, 1]],
          label := "m", time_step := none }
        { x := [0, 1], y := [0, 1], values := [[2, 2], [2, 2]],
          label := "f", time_step := none } 3 [0, 1] [0, 1] (1/1000000)
      = some NpFloat.negInf
    ∧ get_observed_order true
        { x := [0, 1], y := [0, 1], values := [[1, 1], [1, 1]],
          label := "c", time_step := none }
        { x := [0, 1], y := [0, 1], values := [[1, 1], [1, 1]],
          label := "m", time_step := none }
        { x := [0, 1], y := [0, 1], values := [[2, 2], [2, 2]],
          label := "f", time_step := none } 3 [0, 1] [0, 1] (1/1000000)
      = some NpFloat.negInf := by
  have hc : restriction
      { x := [0, 1], y := [0, 1], values := [[1, 1], [1, 1]],
        label := "c", time_step := none } [0, 1] [0, 1] (1/1000000)
      = some { x := [0, 1], y := [0, 1], values := [[1, 1], [1, 1]],
               label := "c-restricted", time_step := none } := by
    norm_num [restriction, boolAny, hasTrueBeyond, applyMask,
      abs_sub_le_iff, abs_le]
    rfl
  have hm : restriction
      { x := [0, 1], y := [0, 1], values := [[1, 1], [1, 1]],
        label := "m", time_step := none } [0, 1] [0, 1] (1/1000000)
      = some { x := [0, 1], y := [0, 1], values := [[1, 1], [1, 1]],
               label := "m-restricted", time_step := none } := by
    norm_num [restriction, boolAny, hasTrueBeyond, applyMask,
      abs_sub_le_iff, abs_le]
    rfl
  have hf : restriction
      { x := [0, 1], y := [0, 1], values := [[2, 2], [2, 2]],
        label := "f", time_step := none } [0, 1] [0, 1] (1/1000000)
      = some { x := [0, 1], y := [0, 1], values := [[2, 2], [2, 2]],
               label := "f-restricted", time_step := none } := by
    norm_num [restriction, boolAny, hasTrueBeyond, applyMask,
      abs_sub_le_iff, abs_le]
    rfl
  exact (C2_observed_order_no_degenerate_error _ _ _ 3 [0, 1] [0, 1]
    (1/1000000) _ _ _ hc hm hf (by rfl) (by rfl) (by norm_num)).2.2
    (by norm_num [matSub, sumSq]) (by norm_num [matSub, sumSq])

section SameGridLemmas

/-- Restriction of a shape-consistent, well-separated field onto its own
grid is the identity on coordinates and values (only the label gains the
`-restricted` suffix). -/
theorem restriction_self (f : Field) (atol : ℚ) (ht : 0 ≤ atol)
    (hx : f.x.Pairwise (fun a b => 2 * atol < b - a))
    (hy : f.y.Pairwise (fun a b => 2 * atol < b - a))
    (hvl : f.values.length = f.y.length)
    (hrow : ∀ row ∈ f.values, row.length = f.x.length) :
    restriction f f.x f.y atol
      = some { x := f.x, y := f.y, values := f.values,
               label := f.label ++ "-restricted",
               time_step := f.time_step } := by
  have h1 := restriction_stride f 1 atol le_rfl ht hx hy hvl hrow
  rw [stride_one, stride_one, stride_one] at h1
  rw [h1]
  congr 1
  simp only [Field.mk.injEq, and_true, true_and]
  exact (List.map_congr_left fun row _ => stride_one row).trans
    (List.map_id' f.values)

theorem zipWith_sub_zero_right :
    ∀ (r z : List ℚ), r.length = z.length → (∀ v ∈ z, v = 0) →
      List.zipWith (fun u v => u - v) r z = r
  | [], [], _, _ => rfl
  | [], _ :: _, h, _ => by simp at h
  | _ :: _, [], h, _ => by simp at h
  | u :: r, w :: z, h, hz => by
      simp only [List.length_cons, Nat.succ.injEq] at h
      have hw : w = 0 := hz w (List.mem_cons_self w z)
      simp only [List.zipWith_cons_cons, hw, sub_zero, List.cons.injEq]
      exact ⟨by trivial, zipWith_sub_zero_right r z h
        (fun v hv => hz v (List.mem_cons_of_mem _ hv))⟩

theorem zipWith_sub_zero_left :
    ∀ (z r : List ℚ), z.length = r.length → (∀ v ∈ z, v = 0) →
      List.zipWith (fun u v => u - v) z r = r.map (fun v => -v)
  | [], [], _, _ => rfl
  | [], _ :: _, h, _ => by simp at h
  | _ :: _, [], h, _ => by simp at h
  | w :: z, u :: r, h, hz => by
      simp only [List.length_cons, Nat.succ.injEq] at h
      have hw : w = 0 := hz w (List.mem_cons_self w z)
      simp only [List.zipWith_cons_cons, hw, zero_sub, List.map_cons,
        List.cons.injEq]
      exact ⟨by trivial, zipWith_sub_zero_left z r h
        (fun v hv => hz v (List.mem_cons_of_mem _ hv))⟩

theorem matSub_zero_right :
    ∀ (A Z : List (List ℚ)), sameShape A Z = true →
      (∀ row ∈ Z, ∀ v ∈ row, v = 0) → matSub A Z = A
  | [], [], _, _ => rfl
  | [], _ :: _, h, _ => by simp [sameShape] at h
  | _ :: _, [], h, _ => by simp [sameShape] at h
  | r :: A, z :: Z, h, hz => by
      obtain ⟨hr, hAB⟩ := (sameShape_cons r z A Z).mp h
      simp only [matSub, List.zipWith_cons_cons, List.cons.injEq]
      refine ⟨zipWith_sub_zero_right r z hr
        (fun v hv => hz z (List.mem_cons_self z Z) v hv), ?_⟩
      exact matSub_zero_right A Z hAB
        (fun row hrow v hv => hz row (List.mem_cons_of_mem _ hrow) v hv)

theorem matSub_zero_left :
    ∀ (Z A : List (List ℚ)), sameShape Z A = true →
      (∀ row ∈ Z, ∀ v ∈ row, v = 0) →
      matSub Z A = A.map (fun row => row.map (fun v => -v))
  | [], [], _, _ => rfl
  | [], _ :: _, h, _ => by simp [sameShape] at h
  | _ :: _, [], h, _ => by simp [sameShape] at h
  | z :: Z, r :: A, h, hz => by
      obtain ⟨hr, hAB⟩ := (sameShape_cons z r Z A).mp h
      simp only [matSub, List.zipWith_cons_cons, List.map_cons,
        List.cons.injEq]
      refine ⟨zipWith_sub_zero_left z r hr
        (fun v hv => hz z (List.mem_cons_self z Z) v hv), ?_⟩
      exact matSub_zero_left Z A hAB
        (fun row hrow v hv => hz row (List.mem_cons_of_mem _ hrow) v hv)

theorem sumSq_neg (A : List (List ℚ)) :
    sumSq (A.map (fun row => row.map (fun v => -v))) = sumSq A := by
  unfold sumSq
  rw [List.map_map]
  apply congrArg
  apply List.map_congr_left
  intro row _
  show ((row.map (fun v => -v)).map (fun v => v * v)).sum
    = (row.map (fun v => v * v)).sum
  rw [List.map_map]
  apply congrArg
  apply List.map_congr_left
  intro v _
  show (-v) * (-v) = v * v
  ring

theorem maxAbs_neg (A : List (List ℚ)) :
    maxAbs (A.map (fun row => row.map (fun v => -v))) = maxAbs A := by
  unfold maxAbs
  rw [List.map_map]
  have h : A.map ((fun row => (row.map (fun v => |v|)).foldr max 0)
        ∘ (fun row => row.map (fun v => -v)))
      = A.map (fun row => (row.map (fun v => |v|)).foldr max 0) := by
    apply List.map_congr_left
    intro row _
    show ((row.map (fun v => -v)).map (fun v => |v|)).foldr max 0
      = (row.map (fun v => |v|)).foldr max 0
    rw [List.map_map]
    have h2 : row.map ((fun v => |v|) ∘ (fun v => -v))
        = row.map (fun v => |v|) := by
      apply List.map_congr_left
      intro v _
      show |(-v)| = |v|
      exact abs_neg v
    rw [h2]
  rw [h]

theorem allZero_iff (A : List (List ℚ)) :
    allZero A = true ↔ ∀ row ∈ A, ∀ v ∈ row, v = 0 := by
  simp [allZero, List.all_eq_true]

theorem sameShape_of_dims (mcols : ℕ) :
    ∀ (A B : List (List ℚ)), A.length = B.length →
      (∀ r ∈ A, r.length = mcols) → (∀ r ∈ B, r.length = mcols) →
      sameShape A B = true
  | [], [], _, _, _ => rfl
  | [], _ :: _, h, _, _ => by simp at h
  | _ :: _, [], h, _, _ => by simp at h
  | r :: A, s :: B, h, hA, hB => by
      refine (sameShape_cons r s A B).mpr ⟨?_, ?_⟩
      · rw [hA r (List.mem_cons_self r A), hB s (List.mem_cons_self s B)]
      · exact sameShape_of_dims mcols A B (by simpa using h)
          (fun t htm => hA t (List.mem_cons_of_mem _ htm))
          (fun t htm => hB t (List.mem_cons_of_mem _ htm))

/-- The same-grid scenario of the repository's own test `test_same_grid`:
coarse and fine all-zero, medium arbitrary but not identically zero.
The observed order is exactly `0` in both norms; no exception occurs. -/
theorem observed_order_same_grid_zero (x y : List ℚ)
    (C M F : List (List ℚ)) (lc lm lf : String) (tc tm tf : Option Int)
    (ratio atol : ℚ) (ht : 0 ≤ atol) (hr : 1 < ratio)
    (hx : sepB (2 * atol) x = true) (hy : sepB (2 * atol) y = true)
    (hCl : C.length = y.length) (hMl : M.length = y.length)
    (hFl : F.length = y.length)
    (hCr : ∀ row ∈ C, row.length = x.length)
    (hMr : ∀ row ∈ M, row.length = x.length)
    (hFr : ∀ row ∈ F, row.length = x.length)
    (hC0 : allZero C = true) (hF0 : allZero F = true)
    (hM : allZero M = false) :
    get_observed_order false
        { x := x, y := y, values := C, label := lc, time_step := tc }
        { x := x, y := y, values := M, label := lm, time_step := tm }
        { x := x, y := y, values := F, label := lf, time_step := tf }
        ratio x y atol = some (NpFloat.val 0)
    ∧ get_observed_order true
        { x := x, y := y, values := C, label := lc, time_step := tc }
        { x := x, y := y, values := M, label := lm, time_step := tm }
        { x := x, y := y, values := F, label := lf, time_step := tf }
        ratio x y atol = some (NpFloat.val 0) := by
  have htt : (0:ℚ) ≤ 2 * atol := by linarith
  have hx' := sepB_pairwise (2 * atol) htt x hx
  have hy' := sepB_pairwise (2 * atol) htt y hy
  have hc := restriction_self
    { x := x, y := y, values := C, label := lc, time_step := tc }
    atol ht hx' hy' hCl hCr
  have hm := restriction_self
    { x := x, y := y, values := M, label := lm, time_step := tm }
    atol ht hx' hy' hMl hMr
  have hf := restriction_self
    { x := x, y := y, values := F, label := lf, time_step := tf }
    atol ht hx' hy' hFl hFr
  have hsMC : sameShape M C = true :=
    sameShape_of_dims x.length M C (hMl.trans hCl.symm) hMr hCr
  have hsFM : sameShape F M = true :=
    sameShape_of_dims x.length F M (hFl.trans hMl.symm) hFr hMr
  have hd1 : matSub M C = M :=
    matSub_zero_right M C hsMC ((allZero_iff C).mp hC0)
  have hd2 : matSub F M = M.map (fun row => row.map (fun v => -v)) :=
    matSub_zero_left F M hsFM ((allZero_iff F).mp hF0)
  have hsum : sumSq M ≠ 0 := by
    intro h0
    rw [(allZero_iff M).mpr ((sumSq_eq_zero_iff M).mp h0)] at hM
    simp at hM
  have hrr : (1:ℝ) < (ratio : ℝ) := by exact_mod_cast hr
  constructor
  · rw [get_observed_order_reduce_L2 _ _ _ ratio x y atol _ _ _
      hc hm hf hsMC hsFM, hd1, hd2]
    have : frobNorm (M.map (fun row => row.map (fun v => -v)))
        = frobNorm M := by
      unfold frobNorm
      rw [sumSq_neg]
    rw [this, npOrder_self _ _ (frobNorm_pos_of M hsum) hrr]
  · rw [get_observed_order_reduce_Linf _ _ _ ratio x y atol _ _ _
      hc hm hf hsMC hsFM, hd1, hd2, maxAbs_neg,
      npOrder_self _ _ (by exact_mod_cast maxAbs_pos_of_sumSq M hsum)
        hrr]

end SameGridLemmas

/-- C3 (amended): in the zero/arbitrary/zero same-grid scenario of the
repository's own test (`test_same_grid` asserts `p == 0.0`), the
observed-order computation returns exactly `0` for every ratio `> 1` and
both norms, provided the medium solution is not identically zero; no
`DegenerateConvergenceError` is raised (the class does not exist). -/
theorem C3_same_grid_zero_order (x y : List ℚ)
    (C M F : List (List ℚ)) (lc lm lf : String) (tc tm tf : Option Int)
    (ratio atol : ℚ) (ht : 0 ≤ atol) (hr : 1 < ratio)
    (hx : sepB (2 * atol) x = true) (hy : sepB (2 * atol) y = true)
    (hCl : C.length = y.length) (hMl : M.length = y.length)
    (hFl : F.length = y.length)
    (hCr : ∀ row ∈ C, row.length = x.length)
    (hMr : ∀ row ∈ M, row.length = x.length)
    (hFr : ∀ row ∈ F, row.length = x.length)
    (hC0 : allZero C = true) (hF0 : allZero F = true)
    (hM : allZero M = false) :
    get_observed_order false
        { x := x, y := y, values := C, label := lc, time_step := tc }
        { x := x, y := y, values := M, label := lm, time_step := tm }
        { x := x, y := y, values := F, label := lf, time_step := tf }
        ratio x y atol = some (NpFloat.val 0)
    ∧ get_observed_order true
        { x := x, y := y, values := C, label := lc, time_step := tc }
        { x := x, y := y, values := M, label := lm, time_step := tm }
        { x := x, y := y, values := F, label := lf, time_step := tf }
        ratio x y atol = some (NpFloat.val 0) :=
  observed_order_same_grid_zero x y C M F lc lm lf tc tm tf ratio atol
    ht hr hx hy hCl hMl hFl hCr hMr hFr hC0 hF0 hM

/-- Counterexample to C3 as stated: with coarse and fine all-zero and a
nonzero medium on the same grid, the code returns `0.0` in both norms
(as the repository's own test expects) instead of raising
`DegenerateConvergenceError`. -/
theorem C3_counterexample :
    get_observed_order false
        { x := [0, 1], y := [0, 1], values := [[0, 0], [0, 0]],
          label := "field1", time_step := some 0 }
        { x := [0, 1], y := [0, 1], values := [[1, 0], [0, 0]],
          label := "field2", time_step := some 0 }
        { x := [0, 1], y := [0, 1], values := [[0, 0], [0, 0]],
          label := "field3", time_step := some 0 }
        3 [0, 1] [0, 1] (1/1000000) = some (NpFloat.val 0)
    ∧ get_observed_order true
        { x := [0, 1], y := [0, 1], values := [[0, 0], [0, 0]],
          label := "field1", time_step := some 0 }
        { x := [0, 1], y := [0, 1], values := [[1, 0], [0, 0]],
          label := "field2", time_step := some 0 }
        { x := [0, 1], y := [0, 1], values := [[0, 0], [0, 0]],
          label := "field3", time_step := some 0 }
        3 [0, 1] [0, 1] (1/1000000) = some (NpFloat.val 0) :=
  observed_order_same_grid_zero [0, 1] [0, 1] [[0, 0], [0, 0]]
    [[1, 0], [0, 0]] [[0, 0], [0, 0]] "field1" "field2" "field3"
    (some 0) (some 0) (some 0) 3 (1/1000000)
    (by norm_num) (by norm_num) (by norm_num [sepB]) (by norm_num [sepB])
    (by rfl) (by rfl) (by rfl) (by simp) (by simp) (by simp)
    (by rfl) (by rfl) (by rfl)

/-- Witness for C3 at a different concrete medium and ratio. -/
theorem C3_witness :
    get_observed_order false
        { x := [0, 1], y := [0, 1], values := [[0, 0], [0, 0]],
          label := "c", time_step := none }
        { x := [0, 1], y := [0, 1], values := [[0, 2], [0, 0]],
          label := "m", time_step := none }
        { x := [0, 1], y := [0, 1], values := [[0, 0], [0, 0]],
          label := "f", time_step := none }
        2 [0, 1] [0, 1] (1/1000000) = some (NpFloat.val 0)
    ∧ get_observed_order true
        { x := [0, 1], y := [0, 1], values := [[0, 0], [0, 0]],
          label := "c", time_step := none }
        { x := [0, 1], y := [0, 1], values := [[0, 2], [0, 0]],
          label := "m", time_step := none }
        { x := [0, 1], y := [0, 1], values := [[0, 0], [0, 0]],
          label := "f", time_step := none }
        2 [0, 1] [0, 1] (1/1000000) = some (NpFloat.val 0) :=
  C3_same_grid_zero_order [0, 1] [0, 1] [[0, 0], [0, 0]]
    [[0, 2], [0, 0]] [[0, 0], [0, 0]] "c" "m" "f" none none none
    2 (1/1000000)
    (by norm_num) (by norm_num) (by norm_num [sepB]) (by norm_num [sepB])
    (by rfl) (by rfl) (by rfl) (by simp) (by simp) (by simp)
    (by rfl) (by rfl) (by rfl)

section ExpandLemmas

/-- The nodal-station layout of the repository's `test_three_grids`
fixture: a finer grid holding the mask-grid coordinates at stride `k`
(`medium.x = ones(nx*k); medium.x[::k] = grid`), with the filler value
`w` everywhere else. -/
def expand {α : Type} (k : ℕ) (l : List α) (w : α) : List α :=
  (l.map (fun t => t :: List.replicate (k - 1) w)).flatten

/-- The coincidence mask such a grid produces: one `True` followed by
`k - 1` `False` entries per mask-grid coordinate. -/
def blockMask (k : ℕ) : ℕ → List Bool
  | 0 => []
  | n + 1 => true :: (List.replicate (k - 1) false ++ blockMask k n)

/-- Elementwise shift of a 2-D value array (`values + c` in NumPy). -/
def addC (c : ℚ) (A : List (List ℚ)) : List (List ℚ) :=
  A.map (fun row => row.map (fun v => v + c))

theorem expand_cons {α : Type} (k : ℕ) (t : α) (l : List α) (w : α) :
    expand k (t :: l) w
      = t :: (List.replicate (k - 1) w ++ expand k l w) := by
  simp [expand]

theorem expand_one {α : Type} : ∀ (l : List α) (w : α), expand 1 l w = l
  | [], _ => rfl
  | t :: l, w => by
      rw [expand_cons]
      simp [expand_one l w]

theorem expand_length {α : Type} (k : ℕ) (hk : 1 ≤ k) :
    ∀ (l : List α) (w : α), (expand k l w).length = l.length * k
  | [], _ => by simp [expand]
  | t :: l, w => by
      rw [expand_cons]
      simp only [List.length_cons, List.length_append,
        List.length_replicate, expand_length k hk l w]
      have : (l.length + 1) * k = l.length * k + k := by ring
      omega

theorem blockMask_length (k : ℕ) (hk : 1 ≤ k) :
    ∀ (n : ℕ), (blockMask k n).length = n * k
  | 0 => by simp [blockMask]
  | n + 1 => by
      show (true :: (List.replicate (k - 1) false ++ blockMask k n)).length
        = (n + 1) * k
      simp only [List.length_cons, List.length_append,
        List.length_replicate, blockMask_length k hk n]
      have : (n + 1) * k = n * k + k := by ring
      omega

theorem boolAny_self (l : List ℚ) (atol : ℚ) (ht : 0 ≤ atol) :
    ∀ t ∈ l, boolAny l atol t = true := by
  intro t htl
  rw [boolAny_eq_true]
  exact ⟨t, htl, by simpa using ht⟩

theorem map_expand_mask (k : ℕ) (targets : List ℚ) (atol w : ℚ)
    (hw : boolAny targets atol w = false) :
    ∀ (l : List ℚ), (∀ t ∈ l, boolAny targets atol t = true) →
      (expand k l w).map (boolAny targets atol) = blockMask k l.length
  | [], _ => by simp [expand, blockMask]
  | t :: l, hmem => by
      rw [expand_cons, List.map_cons, List.map_append, List.map_replicate,
        hmem t (List.mem_cons_self t l), hw,
        map_expand_mask k targets atol w hw l
          (fun u hu => hmem u (List.mem_cons_of_mem _ hu))]
      rfl

theorem applyMask_blockMask {α : Type} (k : ℕ) (hk : 1 ≤ k) :
    ∀ (n : ℕ) (v : List α), v.length = n * k →
      applyMask (blockMask k n) v = stride k v
  | 0, v, h => by
      have hv : v = [] := List.length_eq_zero.mp (by simpa using h)
      subst hv
      simp [blockMask, applyMask_nil_mask, stride_nil]
  | n + 1, v, h => by
      cases v with
      | nil =>
        have hpos : 0 < (n + 1) * k := Nat.mul_pos (Nat.succ_pos n) hk
        simp only [List.length_nil] at h
        omega
      | cons a vt =>
        have hmul : (n + 1) * k = n * k + k := by ring
        have hlen : vt.length = n * k + (k - 1) := by
          simp only [List.length_cons] at h
          omega
        show applyMask
            (true :: (List.replicate (k - 1) false ++ blockMask k n))
            (a :: vt) = stride k (a :: vt)
        rw [applyMask_cons_true, stride_cons]
        have hstep : applyMask
            (List.replicate (k - 1) false ++ blockMask k n) vt
            = stride k (vt.drop (k - 1)) := by
          calc applyMask (List.replicate (k - 1) false ++ blockMask k n) vt
              = applyMask (List.replicate (k - 1) false ++ blockMask k n)
                  (vt.take (k - 1) ++ vt.drop (k - 1)) := by
                rw [List.take_append_drop]
            _ = applyMask (List.replicate (k - 1) false) (vt.take (k - 1))
                  ++ applyMask (blockMask k n) (vt.drop (k - 1)) := by
                apply applyMask_append
                simp only [List.length_replicate, List.length_take]
                omega
            _ = applyMask (blockMask k n) (vt.drop (k - 1)) := by
                rw [applyMask_all_false _ _
                  (fun b hb => List.eq_of_mem_replicate hb),
                  List.nil_append]
            _ = stride k (vt.drop (k - 1)) := by
                apply applyMask_blockMask k hk n
                simp only [List.length_drop]
                omega
        rw [hstep]

/-- Restriction of a `test_three_grids`-style field — mask-grid
coordinates at stride `k` and a far-away filler elsewhere — onto the mask
grid selects exactly the strided sub-array `values[::k, ::k]`. -/
theorem restriction_expand (k : ℕ) (hk : 1 ≤ k) (xs ys : List ℚ)
    (wx wy : ℚ) (V : List (List ℚ)) (lab : String) (ts : Option Int)
    (atol : ℚ) (ht : 0 ≤ atol)
    (hwx : boolAny xs atol wx = false)
    (hwy : boolAny ys atol wy = false)
    (hVl : V.length = ys.length * k)
    (hVr : ∀ row ∈ V, row.length = xs.length * k) :
    restriction { x := expand k xs wx, y := expand k ys wy, values := V,
                  label := lab, time_step := ts } xs ys atol
      = some { x := stride k (expand k xs wx)
               y := stride k (expand k ys wy)
               values := (stride k V).map (stride k)
               label := lab ++ "-restricted"
               time_step := ts } := by
  have hmx : (expand k xs wx).map (boolAny xs atol)
      = blockMask k xs.length :=
    map_expand_mask k xs atol wx hwx xs (boolAny_self xs atol ht)
  have hmy : (expand k ys wy).map (boolAny ys atol)
      = blockMask k ys.length :=
    map_expand_mask k ys atol wy hwy ys (boolAny_self ys atol ht)
  have hnb : hasTrueBeyond (blockMask k ys.length) V.length = false := by
    unfold hasTrueBeyond
    rw [List.drop_eq_nil_of_le (by
      rw [blockMask_length k hk ys.length, hVl])]
    rfl
  have hcol : ((applyMask (blockMask k ys.length) V).any
      fun row => hasTrueBeyond (blockMask k xs.length) row.length)
      = false := by
    apply any_eq_false_of
    intro row hrm
    exact hasTrueBeyond_false_of_le _ _ (by
      rw [blockMask_length k hk xs.length,
        hVr row ((applyMask_sublist _ _).mem hrm)])
  simp only [restriction, hmx, hmy, hnb, hcol, Bool.or_self,
    Bool.false_eq_true, if_false]
  rw [applyMask_blockMask k hk xs.length (expand k xs wx)
      (expand_length k hk xs wx),
    applyMask_blockMask k hk ys.length (expand k ys wy)
      (expand_length k hk ys wy),
    applyMask_blockMask k hk ys.length V hVl,
    List.map_congr_left (fun row hrm =>
      applyMask_blockMask k hk xs.length row
        (hVr row ((stride_sublist k V).mem hrm)))]

theorem zipWith_sub_add_add (a b : ℚ) (r : List ℚ) :
    List.zipWith (fun u v => u - v) (r.map (fun v => v + a))
      (r.map (fun v => v + b)) = r.map (fun _ => a - b) := by
  induction r with
  | nil => rfl
  | cons v t ih =>
    simp only [List.map_cons, List.zipWith_cons_cons, ih,
      List.cons.injEq, and_true]
    ring

theorem matSub_addC_addC (a b : ℚ) (A : List (List ℚ)) :
    matSub (addC a A) (addC b A)
      = A.map (fun row => row.map (fun _ => a - b)) := by
  induction A with
  | nil => rfl
  | cons r A ih =>
    simp only [addC, List.map_cons, matSub, List.zipWith_cons_cons] at ih ⊢
    rw [zipWith_sub_add_add]
    exact List.cons_injective.eq_iff.mpr rfl ▸ congrArg _ ih

theorem zipWith_sub_id_add (b : ℚ) (r : List ℚ) :
    List.zipWith (fun u v => u - v) r (r.map (fun v => v + b))
      = r.map (fun _ => -b) := by
  induction r with
  | nil => rfl
  | cons v t ih =>
    simp only [List.map_cons, List.zipWith_cons_cons, ih,
      List.cons.injEq, and_true]
    ring

theorem matSub_id_addC (b : ℚ) (A : List (List ℚ)) :
    matSub A (addC b A) = A.map (fun row => row.map (fun _ => -b)) := by
  induction A with
  | nil => rfl
  | cons r A ih =>
    simp only [addC, List.map_cons, matSub, List.zipWith_cons_cons] at ih ⊢
    rw [zipWith_sub_id_add]
    exact List.cons_injective.eq_iff.mpr rfl ▸ congrArg _ ih

theorem sumSq_constMap (c : ℚ) :
    ∀ (A : List (List ℚ)),
      sumSq (A.map (fun row => row.map (fun _ => c)))
        = c * c * ((A.map (fun row => (row.length : ℚ))).sum)
  | [] => by simp [sumSq]
  | r :: A => by
      rw [List.map_cons, sumSq_cons, sumSq_constMap c A, List.map_cons,
        List.sum_cons]
      have hrow : ((r.map (fun _ => c)).map (fun v => v * v)).sum
          = (r.length : ℚ) * (c * c) := by
        rw [List.map_map]
        show (r.map (fun _ => c * c)).sum = _
        rw [List.map_const', List.sum_replicate, nsmul_eq_mul]
      rw [hrow]
      ring

theorem foldr_max_map_const {β : Type} (c : ℚ) (hc : 0 ≤ c) :
    ∀ (l : List β), l ≠ [] → (l.map (fun _ => c)).foldr max 0 = c
  | [], h => absurd rfl h
  | v :: l, _ => by
      rw [List.map_cons, List.foldr_cons]
      cases l with
      | nil => simpa using max_eq_left hc
      | cons w l =>
        rw [foldr_max_map_const c hc (w :: l) (by simp)]
        exact max_self c

theorem maxAbs_constMap (c : ℚ) (A : List (List ℚ)) (hA : A ≠ [])
    (hrow : ∀ r ∈ A, r ≠ []) :
    maxAbs (A.map (fun row => row.map (fun _ => c))) = |c| := by
  unfold maxAbs
  rw [List.map_map]
  have h1 : A.map ((fun row => (row.map (fun v => |v|)).foldr max 0)
        ∘ (fun row => row.map (fun _ => c)))
      = A.map (fun _ => |c|) := by
    apply List.map_congr_left
    intro row hrm
    show ((row.map (fun _ => c)).map (fun v => |v|)).foldr max 0 = |c|
    rw [List.map_map]
    exact foldr_max_map_const |c| (abs_nonneg c) row (hrow row hrm)
  rw [h1]
  exact foldr_max_map_const |c| (abs_nonneg c) A hA

theorem rowLenSum_pos (A : List (List ℚ)) (mcols : ℕ) (hA : A ≠ [])
    (hrow : ∀ r ∈ A, r.length = mcols) (hm : 0 < mcols) :
    0 < (A.map (fun row => (row.length : ℚ))).sum := by
  cases A with
  | nil => exact absurd rfl hA
  | cons r A =>
    rw [List.map_cons, List.sum_cons, hrow r (List.mem_cons_self r A)]
    have h1 : (0:ℚ) < (mcols : ℚ) := by exact_mod_cast hm
    have h2 : (0:ℚ) ≤ (A.map (fun row => (row.length : ℚ))).sum := by
      apply List.sum_nonneg
      intro x hx
      obtain ⟨row, _, rfl⟩ := List.mem_map.mp hx
      positivity
    linarith

end ExpandLemmas

section FirstOrderConstruction

/-- The repository's `test_three_grids` fixture, in full: `fine` is an
arbitrary `(ny*r^2, nx*r^2)` array on the `r^2`-times-finer grid;
`medium = fine[::r, ::r] + 1` on the `r`-times-finer grid;
`coarse = fine[::r^2, ::r^2] + (1 + r)` on the mask grid.  The observed
order of convergence is exactly `1` in both norms. -/
theorem observed_order_first_order (r : ℕ) (hr2 : 2 ≤ r)
    (xs ys : List ℚ) (wx wy : ℚ) (FM : List (List ℚ))
    (lc lm lf : String) (tc tm tf : Option Int) (atol : ℚ)
    (ht : 0 ≤ atol) (hxs : xs ≠ []) (hys : ys ≠ [])
    (hwx : boolAny xs atol wx = false)
    (hwy : boolAny ys atol wy = false)
    (hFl : FM.length = ys.length * (r * r))
    (hFr : ∀ row ∈ FM, row.length = xs.length * (r * r)) :
    get_observed_order false
        { x := xs, y := ys,
          values := addC (1 + (r:ℚ))
            ((stride (r*r) FM).map (stride (r*r))),
          label := lc, time_step := tc }
        { x := expand r xs wx, y := expand r ys wy,
          values := addC 1 ((stride r FM).map (stride r)),
          label := lm, time_step := tm }
        { x := expand (r*r) xs wx, y := expand (r*r) ys wy, values := FM,
          label := lf, time_step := tf }
        ((r:ℚ)) xs ys atol = some (NpFloat.val 1)
    ∧ get_observed_order true
        { x := xs, y := ys,
          values := addC (1 + (r:ℚ))
            ((stride (r*r) FM).map (stride (r*r))),
          label := lc, time_step := tc }
        { x := expand r xs wx, y := expand r ys wy,
          values := addC 1 ((stride r FM).map (stride r)),
          label := lm, time_step := tm }
        { x := expand (r*r) xs wx, y := expand (r*r) ys wy, values := FM,
          label := lf, time_step := tf }
        ((r:ℚ)) xs ys atol = some (NpFloat.val 1) := by
  have hk : 1 ≤ r := by omega
  have hkk : 1 ≤ r * r := Nat.one_le_iff_ne_zero.mpr
    (Nat.mul_ne_zero (by omega) (by omega))
  have hrQ : (1:ℚ) < (r:ℚ) := by exact_mod_cast (by omega : 1 < r)
  have hrR : (1:ℝ) < (((r:ℚ)):ℝ) := by exact_mod_cast hrQ
  set C0 := (stride (r*r) FM).map (stride (r*r)) with hC0def
  have hC0l : C0.length = ys.length := by
    rw [hC0def, List.length_map]
    exact stride_length_mul (r*r) hkk FM ys.length hFl
  have hC0r : ∀ row ∈ C0, row.length = xs.length := by
    intro row hrm
    rw [hC0def] at hrm
    obtain ⟨row1, h1, rfl⟩ := List.mem_map.mp hrm
    exact stride_length_mul (r*r) hkk row1 xs.length
      (hFr row1 ((stride_sublist (r*r) FM).mem h1))
  have haddl : ∀ (c : ℚ), (addC c C0).length = ys.length := by
    intro c
    rw [addC, List.length_map, hC0l]
  have haddr : ∀ (c : ℚ), ∀ row ∈ addC c C0, row.length = xs.length := by
    intro c row hrm
    obtain ⟨row0, h0, rfl⟩ := List.mem_map.mp hrm
    rw [List.length_map]
    exact hC0r row0 h0
  -- coarse field: already on the mask grid (k = 1)
  have hcraw := restriction_expand 1 le_rfl xs ys wx wy
    (addC (1 + (r:ℚ)) C0) lc tc atol ht hwx hwy
    (by rw [haddl]; ring) (fun row hrm => by rw [haddr _ row hrm]; ring)
  rw [expand_one xs wx, expand_one ys wy, stride_one, stride_one] at hcraw
  have hvals1 : (stride 1 (addC (1 + (r:ℚ)) C0)).map (stride 1)
      = addC (1 + (r:ℚ)) C0 := by
    rw [stride_one]
    exact (List.map_congr_left fun row _ => stride_one row).trans
      (List.map_id' _)
  rw [hvals1] at hcraw
  -- medium field (k = r)
  have hVml : (addC 1 ((stride r FM).map (stride r))).length
      = ys.length * r := by
    rw [addC, List.length_map, List.length_map]
    exact stride_length_mul r hk FM (ys.length * r) (by rw [hFl]; ring)
  have hVmr : ∀ row ∈ addC 1 ((stride r FM).map (stride r)),
      row.length = xs.length * r := by
    intro row hrm
    obtain ⟨row0, h0, rfl⟩ := List.mem_map.mp hrm
    obtain ⟨row1, h1, rfl⟩ := List.mem_map.mp h0
    rw [List.length_map]
    exact stride_length_mul r hk row1 (xs.length * r)
      (by rw [hFr row1 ((stride_sublist r FM).mem h1)]; ring)
  have hmraw := restriction_expand r hk xs ys wx wy
    (addC 1 ((stride r FM).map (stride r))) lm tm atol ht hwx hwy
    hVml hVmr
  have hmv : (stride r (addC 1 ((stride r FM).map (stride r)))).map
      (stride r) = addC 1 C0 := by
    unfold addC
    rw [stride_map, stride_map, stride_stride r r hk hk FM, hC0def]
    simp only [List.map_map]
    apply List.map_congr_left
    intro row1 _
    simp only [Function.comp_apply]
    rw [stride_map, stride_stride r r hk hk row1]
  rw [hmv] at hmraw
  -- fine field (k = r * r)
  have hfraw := restriction_expand (r*r) hkk xs ys wx wy FM lf tf atol
    ht hwx hwy hFl hFr
  rw [← hC0def] at hfraw
  -- shapes
  have hs1 : sameShape (addC 1 C0) (addC (1 + (r:ℚ)) C0) = true :=
    sameShape_of_dims xs.length _ _ (by rw [haddl, haddl])
      (haddr 1) (haddr _)
  have hs2 : sameShape C0 (addC 1 C0) = true :=
    sameShape_of_dims xs.length _ _ (by rw [hC0l, haddl])
      hC0r (haddr 1)
  -- the two difference arrays are constant
  have hc1 : (1:ℚ) - (1 + (r:ℚ)) = -(r:ℚ) := by ring
  have hd1 : matSub (addC 1 C0) (addC (1 + (r:ℚ)) C0)
      = C0.map (fun row => row.map (fun _ => -(r:ℚ))) := by
    rw [matSub_addC_addC]
    simp only [hc1]
  have hd2 : matSub C0 (addC 1 C0)
      = C0.map (fun row => row.map (fun _ => -(1:ℚ))) :=
    matSub_id_addC 1 C0
  -- sizes and norms
  have hC0ne : C0 ≠ [] := by
    apply List.ne_nil_of_length_pos
    rw [hC0l]
    exact List.length_pos.mpr hys
  have hC0rne : ∀ row ∈ C0, row ≠ [] := by
    intro row hrm
    apply List.ne_nil_of_length_pos
    rw [hC0r row hrm]
    exact List.length_pos.mpr hxs
  have hS : 0 < (C0.map (fun row => (row.length : ℚ))).sum :=
    rowLenSum_pos C0 xs.length hC0ne hC0r (List.length_pos.mpr hxs)
  have hsum1 : sumSq (C0.map (fun row => row.map (fun _ => -(r:ℚ))))
      = (r:ℚ) * (r:ℚ) * ((C0.map (fun row => (row.length : ℚ))).sum) := by
    rw [sumSq_constMap]
    ring
  have hsum2 : sumSq (C0.map (fun row => row.map (fun _ => -(1:ℚ))))
      = (C0.map (fun row => (row.length : ℚ))).sum := by
    rw [sumSq_constMap]
    ring
  have hfrob2pos : 0 < frobNorm
      (C0.map (fun row => row.map (fun _ => -(1:ℚ)))) := by
    apply frobNorm_pos_of
    rw [hsum2]
    exact hS.ne.symm
  have hfrobratio : frobNorm (C0.map (fun row => row.map (fun _ => -(r:ℚ))))
      = (((r:ℚ)):ℝ) * frobNorm
          (C0.map (fun row => row.map (fun _ => -(1:ℚ)))) := by
    have hgen : ∀ s : ℚ, 0 ≤ s →
        Real.sqrt (((r:ℚ) * (r:ℚ) * s : ℚ) : ℝ)
          = (((r:ℚ)):ℝ) * Real.sqrt ((s : ℚ) : ℝ) := by
      intro s hs
      rw [show (((r:ℚ) * (r:ℚ) * s : ℚ) : ℝ)
            = ((((r:ℚ)):ℝ) * (((r:ℚ)):ℝ)) * ((s:ℚ):ℝ) from by
          push_cast
          ring]
      rw [Real.sqrt_mul (by positivity), Real.sqrt_mul_self (by positivity)]
    unfold frobNorm
    rw [hsum1, hsum2]
    exact hgen _ hS.le
  have hmax1 : maxAbs (C0.map (fun row => row.map (fun _ => -(r:ℚ))))
      = (r:ℚ) := by
    rw [maxAbs_constMap _ _ hC0ne hC0rne, abs_neg,
      abs_of_nonneg (by positivity)]
  have hmax2 : maxAbs (C0.map (fun row => row.map (fun _ => -(1:ℚ))))
      = 1 := by
    rw [maxAbs_constMap _ _ hC0ne hC0rne]
    norm_num
  constructor
  · rw [get_observed_order_reduce_L2 _ _ _ ((r:ℚ)) xs ys atol _ _ _
      hcraw hmraw hfraw (by exact hs1) (by exact hs2)]
    dsimp only
    rw [hd1, hd2, hfrobratio, npOrder_ratio _ _ hfrob2pos hrR]
  · rw [get_observed_order_reduce_Linf _ _ _ ((r:ℚ)) xs ys atol _ _ _
      hcraw hmraw hfraw (by exact hs1) (by exact hs2)]
    dsimp only
    rw [hd1, hd2, hmax1, hmax2]
    have h1 := npOrder_ratio 1 (((r:ℚ)):ℝ) one_pos hrR
    rw [mul_one] at h1
    rw [show ((1:ℚ):ℝ) = (1:ℝ) from Rat.cast_one, h1]

end FirstOrderConstruction

/-- C4: for refinement ratio `r` in `{2, 3}` and both norms, with `fine`
an arbitrary `(ny*r^2, nx*r^2)` array, `medium = fine[::r, ::r] + 1.0` on
the `r`-times-coarser grid and `coarse = fine[::r^2, ::r^2] + (1 + r)` on
the mask grid, the observed order of convergence is exactly `1`
(the repository's `test_three_grids` fixture; filler coordinates must not
coincide with any mask coordinate within tolerance). -/
theorem C4_first_order_construction (r : ℕ) (hr : r = 2 ∨ r = 3)
    (xs ys : List ℚ) (wx wy : ℚ) (FM : List (List ℚ))
    (lc lm lf : String) (tc tm tf : Option Int) (atol : ℚ)
    (ht : 0 ≤ atol) (hxs : xs ≠ []) (hys : ys ≠ [])
    (hwx : boolAny xs atol wx = false)
    (hwy : boolAny ys atol wy = false)
    (hFl : FM.length = ys.length * (r * r))
    (hFr : ∀ row ∈ FM, row.length = xs.length * (r * r)) :
    get_observed_order false
        { x := xs, y := ys,
          values := addC (1 + (r:ℚ))
            ((stride (r*r) FM).map (stride (r*r))),
          label := lc, time_step := tc }
        { x := expand r xs wx, y := expand r ys wy,
          values := addC 1 ((stride r FM).map (stride r)),
          label := lm, time_step := tm }
        { x := expand (r*r) xs wx, y := expand (r*r) ys wy, values := FM,
          label := lf, time_step := tf }
        ((r:ℚ)) xs ys atol = some (NpFloat.val 1)
    ∧ get_observed_order true
        { x := xs, y := ys,
          values := addC (1 + (r:ℚ))
            ((stride (r*r) FM).map (stride (r*r))),
          label := lc, time_step := tc }
        { x := expand r xs wx, y := expand r ys wy,
          values := addC 1 ((stride r FM).map (stride r)),
          label := lm, time_step := tm }
        { x := expand (r*r) xs wx, y := expand (r*r) ys wy, values := FM,
          label := lf, time_step := tf }
        ((r:ℚ)) xs ys atol = some (NpFloat.val 1) := by
  have hr2 : 2 ≤ r := by rcases hr with rfl | rfl <;> omega
  exact observed_order_first_order r hr2 xs ys wx wy FM lc lm lf
    tc tm tf atol ht hxs hys hwx hwy hFl hFr

/-- Witness for C4 at `r = 2` with a concrete 4x4 fine array. -/
theorem C4_witness :
    get_observed_order false
        { x := [0], y := [0],
          values := addC (1 + ((2:ℕ):ℚ))
            ((stride (2*2) [[(0:ℚ), 1, 2, 3], [4, 5, 6, 7],
                [8, 9, 10, 11], [12, 13, 14, 15]]).map (stride (2*2))),
          label := "c", time_step := none }
        { x := expand 2 [0] 10, y := expand 2 [0] 10,
          values := addC 1
            ((stride 2 [[(0:ℚ), 1, 2, 3], [4, 5, 6, 7],
                [8, 9, 10, 11], [12, 13, 14, 15]]).map (stride 2)),
          label := "m", time_step := none }
        { x := expand (2*2) [0] 10, y := expand (2*2) [0] 10,
          values := [[(0:ℚ), 1, 2, 3], [4, 5, 6, 7],
            [8, 9, 10, 11], [12, 13, 14, 15]],
          label := "f", time_step := none }
        (((2:ℕ)):ℚ) [0] [0] 0 = some (NpFloat.val 1)
    ∧ get_observed_order true
        { x := [0], y := [0],
          values := addC (1 + ((2:ℕ):ℚ))
            ((stride (2*2) [[(0:ℚ), 1, 2, 3], [4, 5, 6, 7],
                [8, 9, 10, 11], [12, 13, 14, 15]]).map (stride (2*2))),
          label := "c", time_step := none }
        { x := expand 2 [0] 10, y := expand 2 [0] 10,
          values := addC 1
            ((stride 2 [[(0:ℚ), 1, 2, 3], [4, 5, 6, 7],
                [8, 9, 10, 11], [12, 13, 14, 15]]).map (stride 2)),
          label := "m", time_step := none }
        { x := expand (2*2) [0] 10, y := expand (2*2) [0] 10,
          values := [[(0:ℚ), 1, 2, 3], [4, 5, 6, 7],
            [8, 9, 10, 11], [12, 13, 14, 15]],
          label := "f", time_step := none }
        (((2:ℕ)):ℚ) [0] [0] 0 = some (NpFloat.val 1) :=
  C4_first_order_construction 2 (Or.inl rfl) [0] [0] 10 10
    [[(0:ℚ), 1, 2, 3], [4, 5, 6, 7], [8, 9, 10, 11], [12, 13, 14, 15]]
    "c" "m" "f" none none none 0 le_rfl (by simp) (by simp)
    (by norm_num [boolAny]) (by norm_num [boolAny])
    (by norm_num)
    (by
      intro row hrow
      simp only [List.mem_cons, List.not_mem_nil, or_false] at hrow
      rcases hrow with rfl | rfl | rfl | rfl <;> norm_num)

end Snake
